import Mathlib

set_option maxRecDepth 8000

/-!
# A verification model of the symbolic assertion checker (`SMTChecker.cpp`)

This file gives a shallow embedding of the statement traverser, expression
encoder and verification-goal machinery of `libsolidity/formal/SMTChecker.cpp`
and proves properties of branch merging, loop abstraction, the division
encoding, the `assert`/`require` protocol and the solver push/pop discipline.

Modelling conventions:
* Variable declarations (`VariableDeclaration const*`) are identified by
  natural-number ids; the pointer order used by `std::set`/`std::map` is
  modelled by the `Nat` order.
* The solver interface (`m_interface`, an `SMTPortfolio`) is external to the
  given source.  Its mutating calls (`push`, `pop`, `addAssertion`, `check`)
  are recorded in an event trace, and `check` results are supplied by an
  oracle `O : Nat → CheckResult` indexed by the number of checks made so far.
* Diagnostics (`m_errorReporter.warning`) are recorded as `warn` events with
  their primary message text.  The counter-example table and the loop/mapping
  hint appended as secondary source locations on a satisfiable goal are
  rendered from solver model strings and latched flags; the model strings are
  external, so these trailers are not modelled.
* The per-expression symbolic variables (`m_expressions`, `defineExpr`,
  `expr`) are flattened: `expr(e)` in the C++ code always denotes the term
  most recently encoded for the node `e`, and every such use is reached after
  the corresponding `accept`, so the encoder here simply returns the encoded
  term and the callers bind it exactly where the C++ code calls `expr`.
-/

namespace SMTCheckerM

/-- Variable-declaration identity (`VariableDeclaration const*` in the code). -/
abbrev Var := Nat

/-- An integer type annotation (`IntegerType const&`): signedness and width. -/
structure IntTy where
  isSigned : Bool
  numBits : Nat
deriving DecidableEq, Repr

/-- Modelled from the spec: `IntegerType::minValue` is outside the given
source; §4.2 maps `int_N` to `[-2^(N-1), 2^(N-1)-1]` and `uint_N` to
`[0, 2^N-1]`. -/
def IntTy.minValue (t : IntTy) : Int :=
  if t.isSigned then -(2 ^ (t.numBits - 1)) else 0

/-- Modelled from the spec: see `IntTy.minValue`. -/
def IntTy.maxValue (t : IntTy) : Int :=
  if t.isSigned then 2 ^ (t.numBits - 1) - 1 else 2 ^ t.numBits - 1

/-- Solver terms (`smt::Expression`).  `var v i` is the solver constant for
the SSA instance `v_i` of program variable `v`; `idiv` is SMT-LIB integer
division. -/
inductive Term where
  | intConst : Int → Term
  | boolConst : Bool → Term
  | var : Var → Nat → Term
  | add : Term → Term → Term
  | sub : Term → Term → Term
  | mul : Term → Term → Term
  | idiv : Term → Term → Term
  | eq : Term → Term → Term
  | ne : Term → Term → Term
  | lt : Term → Term → Term
  | le : Term → Term → Term
  | gt : Term → Term → Term
  | ge : Term → Term → Term
  | not : Term → Term
  | and : Term → Term → Term
  | or : Term → Term → Term
  | implies : Term → Term → Term
  | ite : Term → Term → Term → Term
deriving DecidableEq, Repr

mutual

/-- Modelled from the spec: evaluation of integer-sorted terms under an
assignment of the SSA constants.  Per §4.4/§4.6 the solver works in unbounded
integer arithmetic and SMT-LIB integer division rounds toward `-∞`
(`Int.fdiv`).  Boolean-sorted terms evaluate to a junk `0` (the encoder never
builds such applications). -/
def Term.evalI (env : Var → Nat → Int) : Term → Int
  | .intConst n => n
  | .var v i => env v i
  | .add a b => Term.evalI env a + Term.evalI env b
  | .sub a b => Term.evalI env a - Term.evalI env b
  | .mul a b => Term.evalI env a * Term.evalI env b
  | .idiv a b => Int.fdiv (Term.evalI env a) (Term.evalI env b)
  | .ite c a b => if Term.evalB env c then Term.evalI env a else Term.evalI env b
  | _ => 0

/-- Modelled from the spec: evaluation of boolean-sorted terms; see
`Term.evalI`. -/
def Term.evalB (env : Var → Nat → Int) : Term → Bool
  | .boolConst b => b
  | .eq a b => decide (Term.evalI env a = Term.evalI env b)
  | .ne a b => decide (Term.evalI env a ≠ Term.evalI env b)
  | .lt a b => decide (Term.evalI env a < Term.evalI env b)
  | .le a b => decide (Term.evalI env a ≤ Term.evalI env b)
  | .gt a b => decide (Term.evalI env b < Term.evalI env a)
  | .ge a b => decide (Term.evalI env b ≤ Term.evalI env a)
  | .not a => !(Term.evalB env a)
  | .and a b => Term.evalB env a && Term.evalB env b
  | .or a b => Term.evalB env a || Term.evalB env b
  | .implies a b => !(Term.evalB env a) || Term.evalB env b
  | .ite c a b => if Term.evalB env c then Term.evalB env a else Term.evalB env b
  | _ => false

end

/-- `smt::CheckResult`. -/
inductive CheckResult where
  | satisfiable
  | unsatisfiable
  | unknown
  | conflicting
  | error
deriving DecidableEq, Repr

/-- One call on the solver interface or the error reporter, in program order.
`check` carries the named evaluation list (`expressionNames` zipped with
`expressionsToEvaluate`); `warn` carries the primary message. -/
inductive Event where
  | push : Event
  | pop : Event
  | assert : Term → Event
  | check : List (String × Term) → Event
  | warn : String → Event
deriving DecidableEq, Repr

/-- Modelled from the spec: the `SSAVariable` bookkeeping inside
`SymbolicVariable` is outside the given source.  Per §3 the SSA index is
monotonically increasing and §8 requires the index produced at a merge to be
strictly greater than the indices being merged, while
`SMTChecker::resetVariableIndices` writes the *current* index back to an older
snapshot; so the variable carries the current index `cur` together with a
never-decreasing next-free counter `next`, and `increaseIndex` always
allocates a fresh index from `next`. -/
structure SymVar where
  cur : Nat
  next : Nat
deriving DecidableEq, Repr

/-- `SSAVariable::increaseIndex` (modelled from the spec, see `SymVar`). -/
def SymVar.increaseIndex (v : SymVar) : SymVar :=
  { cur := v.next, next := v.next + 1 }

/-- The checker state threaded through the traversal: `m_variables` (as an
association list), `m_pathConditions` (head = `back()`), the solver/reporter
event trace, the latched `m_loopExecutionHappened` flag, the number of solver
`check` calls made so far (indexing the oracle), the length of
`m_functionPath`, and the return-parameter list of the function currently at
the back of `m_functionPath`. -/
structure Chk where
  vars : List (Var × SymVar)
  pathConditions : List Term
  trace : List Event
  loopExecutionHappened : Bool
  checkCount : Nat
  functionPathLen : Nat
  retParams : List Var
deriving DecidableEq, Repr

/-- Lookup in `m_variables`; the C++ accessors `solAssert(knownVariable(..))`
first, so theorems carry known-ness hypotheses where it matters. -/
def Chk.getVar (s : Chk) (v : Var) : SymVar :=
  (s.vars.lookup v).getD ⟨0, 0⟩

/-- `SMTChecker::knownVariable`. -/
def knownVariable (s : Chk) (v : Var) : Bool :=
  (s.vars.lookup v).isSome

/-- Write back a symbolic variable (in-place update of the map entry; no
entry is ever created here, mirroring `m_variables.at`). -/
def Chk.setVar (s : Chk) (v : Var) (sv : SymVar) : Chk :=
  { s with vars := s.vars.map fun p => (p.1, if p.1 = v then sv else p.2) }

/-- `SMTChecker::currentValue`. -/
def currentValue (s : Chk) (v : Var) : Term :=
  .var v (s.getVar v).cur

/-- `SMTChecker::valueAtIndex`. -/
def valueAtIndex (v : Var) (i : Nat) : Term :=
  .var v i

/-- `SMTChecker::newValue`: `increaseIndex` on the variable's symbolic
counterpart, returning the term at the new index. -/
def newValue (s : Chk) (v : Var) : Term × Chk :=
  let sv := (s.getVar v).increaseIndex
  (.var v sv.cur, s.setVar v sv)

/-- `m_interface->addAssertion`. -/
def addAssertion (s : Chk) (t : Term) : Chk :=
  { s with trace := s.trace ++ [.assert t] }

/-- `m_interface->push`. -/
def interfacePush (s : Chk) : Chk :=
  { s with trace := s.trace ++ [.push] }

/-- `m_interface->pop`. -/
def interfacePop (s : Chk) : Chk :=
  { s with trace := s.trace ++ [.pop] }

/-- `m_errorReporter.warning` (primary message only, see the header note). -/
def warnE (s : Chk) (m : String) : Chk :=
  { s with trace := s.trace ++ [.warn m] }

/-- `SMTChecker::currentPathConditions`: `true` on an empty stack, else the
most recently pushed conjunction. -/
def currentPathConditions (s : Chk) : Term :=
  match s.pathConditions with
  | [] => .boolConst true
  | c :: _ => c

/-- `SMTChecker::pushPathCondition`: pushes `currentPathConditions() && e`. -/
def pushPathCondition (s : Chk) (e : Term) : Chk :=
  { s with pathConditions := (Term.and (currentPathConditions s) e) :: s.pathConditions }

/-- `SMTChecker::popPathCondition` (the C++ code `solAssert`s the stack is
non-empty; `tail` is total and the traverser only pops what it pushed). -/
def popPathCondition (s : Chk) : Chk :=
  { s with pathConditions := s.pathConditions.tail }

/-- `SMTChecker::addPathConjoinedExpression`. -/
def addPathConjoinedExpression (s : Chk) (e : Term) : Chk :=
  addAssertion s (Term.and (currentPathConditions s) e)

/-- `SMTChecker::addPathImpliedExpression`. -/
def addPathImpliedExpression (s : Chk) (e : Term) : Chk :=
  addAssertion s (Term.implies (currentPathConditions s) e)

/-- `SMTChecker::isRootFunction`. -/
def isRootFunction (s : Chk) : Bool :=
  s.functionPathLen = 1

/-- The display name used for a variable in the evaluation list
(`var.first->name()`). -/
def varName (v : Var) : String :=
  "v" ++ toString v

/-- `SMTChecker::checkSatisfiableAndGenerateModel`: queries the portfolio and
records the `check` event.  The result comes from the oracle `O`; solver
transport errors already surface as `CheckResult::ERROR` through the
portfolio, and model strings are external (header note). -/
def checkSatisfiableAndGenerateModel (O : Nat → CheckResult)
    (toEval : List (String × Term)) (s : Chk) : CheckResult × Chk :=
  (O s.checkCount,
   { s with trace := s.trace ++ [.check toEval], checkCount := s.checkCount + 1 })

/-- `SMTChecker::checkSatisfiable`. -/
def checkSatisfiable (O : Nat → CheckResult) (s : Chk) : CheckResult × Chk :=
  checkSatisfiableAndGenerateModel O [] s

/-- `SMTChecker::division`: raw SMT division for unsigned types, and the
four-way sign case split for signed types (SMT-LIB division rounds
differently for negative operands). -/
def division (left right : Term) (ty : IntTy) : Term :=
  if ty.isSigned then
    Term.ite (Term.ge left (Term.intConst 0))
      (Term.ite (Term.ge right (Term.intConst 0))
        (Term.idiv left right)
        (Term.sub (Term.intConst 0)
          (Term.idiv left (Term.sub (Term.intConst 0) right))))
      (Term.ite (Term.ge right (Term.intConst 0))
        (Term.sub (Term.intConst 0)
          (Term.idiv (Term.sub (Term.intConst 0) left) right))
        (Term.idiv (Term.sub (Term.intConst 0) left)
          (Term.sub (Term.intConst 0) right)))
  else
    Term.idiv left right

/-- The evaluation list built by `checkCondition` when inside a function:
the extra term first, then each value-typed variable under its name (the
fragment has no globals and no uninterpreted terms). -/
def checkConditionEvalList (additional : Option (String × Term)) (s : Chk) :
    List (String × Term) :=
  if s.functionPathLen ≠ 0 then
    (match additional with
     | some p => [p]
     | none => []) ++
    s.vars.map (fun p => (varName p.1, Term.var p.1 p.2.cur))
  else []

/-- `SMTChecker::checkCondition` (the goal check protocol): push a scope,
assert `pathCondition && condition`, build the evaluation list, `check`,
dispatch on the five results, pop. -/
def checkCondition (O : Nat → CheckResult) (condition : Term)
    (description : String) (additional : Option (String × Term)) (s : Chk) : Chk :=
  let s1 := interfacePush s
  let s2 := addPathConjoinedExpression s1 condition
  let toEval := checkConditionEvalList additional s2
  let r := checkSatisfiableAndGenerateModel O toEval s2
  let s4 :=
    match r.1 with
    | .satisfiable => warnE r.2 (description ++ " happens here")
    | .unsatisfiable => r.2
    | .unknown => warnE r.2 (description ++ " might happen here.")
    | .conflicting =>
        warnE r.2 "At least two SMT solvers provided conflicting answers. Results might not be sound."
    | .error => warnE r.2 "Error trying to invoke SMT solver."
  interfacePop s4

/-- `SMTChecker::checkBooleanNotConstant`: skip if the condition node is a
literal; otherwise two successive push/pop scopes checking
`pathCondition && cond` and `pathCondition && !cond`, then the dispatch on
the pair of results (ERROR first, then CONFLICTING, then SAT/SAT, then
UNKNOWN, then UNSAT/UNSAT, else the `$VALUE` substitution). -/
def checkBooleanNotConstant (O : Nat → CheckResult) (conditionIsLiteral : Bool)
    (condition : Term) (description : String) (s : Chk) : Chk :=
  if conditionIsLiteral then s
  else
    let s2 := addPathConjoinedExpression (interfacePush s) condition
    let rp := checkSatisfiable O s2
    let s4 := interfacePop rp.2
    let s6 := addPathConjoinedExpression (interfacePush s4) (Term.not condition)
    let rn := checkSatisfiable O s6
    let s8 := interfacePop rn.2
    if rp.1 = .error ∨ rn.1 = .error then
      warnE s8 "Error trying to invoke SMT solver."
    else if rp.1 = .conflicting ∨ rn.1 = .conflicting then
      warnE s8 "At least two SMT solvers provided conflicting answers. Results might not be sound."
    else if rp.1 = .satisfiable ∧ rn.1 = .satisfiable then
      s8
    else if rp.1 = .unknown ∨ rn.1 = .unknown then
      s8
    else if rp.1 = .unsatisfiable ∧ rn.1 = .unsatisfiable then
      warnE s8 "Condition unreachable."
    else
      let value := if rp.1 = .satisfiable then "true" else "false"
      warnE s8 (description.replace "$VALUE" value)

/-- `SMTChecker::checkUnderOverflow`: the two bound goals against the type,
the offending term passed under the extra name `<result>`
(`formatNumberReadable` is rendered as plain decimal here). -/
def checkUnderOverflow (O : Nat → CheckResult) (value : Term) (ty : IntTy) (s : Chk) : Chk :=
  let s1 := checkCondition O (Term.lt value (Term.intConst ty.minValue))
    ("Underflow (resulting value less than " ++ toString ty.minValue ++ ")")
    (some ("<result>", value)) s
  checkCondition O (Term.gt value (Term.intConst ty.maxValue))
    ("Overflow (resulting value larger than " ++ toString ty.maxValue ++ ")")
    (some ("<result>", value)) s1

/-- `SMTChecker::assignment` (the assignment protocol) for the integer
fragment: overflow/underflow goals on the assigned term against the declared
type, then bump the SSA index and assert `decl_new == value`.  (The mapping
branch — `arrayAssignment` — concerns mapping-typed declarations, which do
not occur in this fragment.) -/
def assignment (Γ : Var → IntTy) (O : Nat → CheckResult) (v : Var) (value : Term) (s : Chk) : Chk :=
  let s1 := checkUnderOverflow O value (Γ v) s
  let r := newValue s1 v
  addAssertion r.2 (Term.eq r.1 value)

/-- Integer-typed program expressions.  Each arithmetic node carries its
`commonType` annotation.  `inc v` is the prefix `++` on an identifier
(`Token::Inc` in `endVisit(UnaryOperation)`), the side-effecting expression
form of the fragment. -/
inductive AExp where
  | lit : Int → AExp
  | var : Var → AExp
  | add : IntTy → AExp → AExp → AExp
  | sub : IntTy → AExp → AExp → AExp
  | mul : IntTy → AExp → AExp → AExp
  | div : IntTy → AExp → AExp → AExp
  | inc : Var → AExp
deriving DecidableEq, Repr

/-- Boolean-typed program expressions (conditions and `assert`/`require`
arguments). -/
inductive BExp where
  | blit : Bool → BExp
  | not : BExp → BExp
  | and : BExp → BExp → BExp
  | or : BExp → BExp → BExp
  | eq : AExp → AExp → BExp
  | ne : AExp → AExp → BExp
  | lt : AExp → AExp → BExp
  | le : AExp → AExp → BExp
  | gt : AExp → AExp → BExp
  | ge : AExp → AExp → BExp
deriving DecidableEq, Repr

/-- Whether the AST node is itself a `Literal` (the
`dynamic_cast<Literal const*>` test in `checkBooleanNotConstant`). -/
def BExp.isLiteralNode : BExp → Bool
  | .blit _ => true
  | _ => false

/-- Statements of the traversed fragment.  `skip` is the empty statement and
stands for an absent `for` init/loop sub-statement; `whileS d c b` is a
`WhileStatement` with `isDoWhile() = d`; `forS init cond iter body` is a
`ForStatement`; `assertS`/`requireS` are expression statements whose
expression is the corresponding builtin call. -/
inductive Stmt where
  | skip : Stmt
  | seq : Stmt → Stmt → Stmt
  | assign : Var → AExp → Stmt
  | ifS : BExp → Stmt → Option Stmt → Stmt
  | whileS : Bool → BExp → Stmt → Stmt
  | forS : Stmt → Option BExp → Stmt → Stmt → Stmt
  | ret : AExp → Stmt
  | assertS : BExp → Stmt
  | requireS : BExp → Stmt

/-- Modelled from the spec: `VariableUsage::touchedVariables` is outside the
given source; per §4.3 it returns, in AST order with duplicates allowed,
every variable declaration that is assigned or incremented anywhere in the
subtree. -/
def touchedA : AExp → List Var
  | .lit _ => []
  | .var _ => []
  | .add _ a b => touchedA a ++ touchedA b
  | .sub _ a b => touchedA a ++ touchedA b
  | .mul _ a b => touchedA a ++ touchedA b
  | .div _ a b => touchedA a ++ touchedA b
  | .inc v => [v]

/-- Modelled from the spec: see `touchedA`. -/
def touchedB : BExp → List Var
  | .blit _ => []
  | .not a => touchedB a
  | .and a b => touchedB a ++ touchedB b
  | .or a b => touchedB a ++ touchedB b
  | .eq a b => touchedA a ++ touchedA b
  | .ne a b => touchedA a ++ touchedA b
  | .lt a b => touchedA a ++ touchedA b
  | .le a b => touchedA a ++ touchedA b
  | .gt a b => touchedA a ++ touchedA b
  | .ge a b => touchedA a ++ touchedA b

/-- Modelled from the spec: see `touchedA`. -/
def touchedStmt : Stmt → List Var
  | .skip => []
  | .seq a b => touchedStmt a ++ touchedStmt b
  | .assign v e => v :: touchedA e
  | .ifS c t e => touchedB c ++ touchedStmt t ++
      (match e with
       | some e => touchedStmt e
       | none => [])
  | .whileS _ c b => touchedB c ++ touchedStmt b
  | .forS init c iter body => touchedStmt init ++
      (match c with
       | some c => touchedB c
       | none => []) ++ touchedStmt iter ++ touchedStmt body
  | .ret e => touchedA e
  | .assertS c => touchedB c
  | .requireS c => touchedB c

/-- Sorted deduplication, modelling iteration over
`std::set<VariableDeclaration const*>` in `mergeVariables` and the
`std::sort`/`std::unique` pass in `visit(ForStatement)`. -/
def insertSorted (x : Var) : List Var → List Var
  | [] => [x]
  | y :: ys =>
      if x < y then x :: y :: ys
      else if x = y then y :: ys
      else y :: insertSorted x ys

/-- See `insertSorted`. -/
def dedupSort (l : List Var) : List Var :=
  l.foldr insertSorted []

/-- `SMTChecker::VariableIndices`: a snapshot of the live SSA index of every
variable in `m_variables`. -/
abbrev VariableIndices := List (Var × Nat)

/-- `SMTChecker::copyVariableIndices`. -/
def copyVariableIndices (s : Chk) : VariableIndices :=
  s.vars.map fun p => (p.1, p.2.cur)

/-- `SMTChecker::resetVariableIndices`: write the snapshot's index back into
each variable's current index (the next-free counter is untouched, see
`SymVar`). -/
def resetVariableIndices (s : Chk) (ind : VariableIndices) : Chk :=
  { s with vars := s.vars.map fun p => (p.1,
      match ind.lookup p.1 with
      | some i => { p.2 with cur := i }
      | none => p.2) }

/-- Modelled from the spec: `setSymbolicUnknownValue` is outside the given
source; per §4.2 it asserts only the sort bounds, for an integer
`min ≤ v_i ≤ max`. -/
def setUnknownValue (Γ : Var → IntTy) (s : Chk) (v : Var) : Chk :=
  addAssertion s (Term.and
    (Term.le (Term.intConst (Γ v).minValue) (currentValue s v))
    (Term.le (currentValue s v) (Term.intConst (Γ v).maxValue)))

/-- `SMTChecker::resetVariables` (the loop havoc): for each listed
declaration, bump the index and constrain the new instance only by its sort
bounds. -/
def resetVariables (Γ : Var → IntTy) (s : Chk) (vs : List Var) : Chk :=
  vs.foldl (fun s v => setUnknownValue Γ (newValue s v).2 v) s

/-- The recursion of `SMTChecker::mergeVariables` over the deduplicated
touched set: both snapshots must contain the declaration and the two indices
must differ (`solAssert`s, modelled as `none` = process abort); then bump the
index and assert `v_new == ite(cond, v_trueIndex, v_falseIndex)`. -/
def mergeVariablesFrom (condition : Term) (iT iF : VariableIndices) :
    List Var → Chk → Option Chk
  | [], s => some s
  | v :: rest, s =>
      match iT.lookup v, iF.lookup v with
      | some trueIndex, some falseIndex =>
          if trueIndex = falseIndex then none
          else
            let r := newValue s v
            mergeVariablesFrom condition iT iF rest
              (addAssertion r.2 (Term.eq r.1
                (Term.ite condition (valueAtIndex v trueIndex) (valueAtIndex v falseIndex))))
      | _, _ => none

/-- `SMTChecker::mergeVariables`. -/
def mergeVariables (touched : List Var) (condition : Term)
    (iT iF : VariableIndices) (s : Chk) : Option Chk :=
  mergeVariablesFrom condition iT iF (dedupSort touched) s

/-- The expression encoder for integer expressions (`endVisit(Literal)`,
`endVisit(Identifier)`, `SMTChecker::arithmeticOperation`, and the
`Token::Inc` case of `endVisit(UnaryOperation)`), returning the encoded term
together with the updated state.  For `/` the encoder checks the
`right == 0` goal, then asserts `right != 0`, then runs the
overflow/underflow goals on the encoded value, exactly as
`arithmeticOperation` does. -/
def evalAexp (Γ : Var → IntTy) (O : Nat → CheckResult) : AExp → Chk → Term × Chk
  | .lit n, s => (.intConst n, s)
  | .var v, s => (currentValue s v, s)
  | .add ty a b, s =>
      let l := evalAexp Γ O a s
      let r := evalAexp Γ O b l.2
      let value := Term.add l.1 r.1
      (value, checkUnderOverflow O value ty r.2)
  | .sub ty a b, s =>
      let l := evalAexp Γ O a s
      let r := evalAexp Γ O b l.2
      let value := Term.sub l.1 r.1
      (value, checkUnderOverflow O value ty r.2)
  | .mul ty a b, s =>
      let l := evalAexp Γ O a s
      let r := evalAexp Γ O b l.2
      let value := Term.mul l.1 r.1
      (value, checkUnderOverflow O value ty r.2)
  | .div ty a b, s =>
      let l := evalAexp Γ O a s
      let r := evalAexp Γ O b l.2
      let value := division l.1 r.1 ty
      let s3 := checkCondition O (Term.eq r.1 (Term.intConst 0))
        "Division by zero" (some ("<result>", r.1)) r.2
      let s4 := addAssertion s3 (Term.ne r.1 (Term.intConst 0))
      (value, checkUnderOverflow O value ty s4)
  | .inc v, s =>
      -- Token::Inc on an identifier: newValue = innerValue + 1, assigned via
      -- the assignment protocol; the prefix expression's value is the
      -- computed term (not the fresh SSA instance).
      let innerValue := currentValue s v
      let newVal := Term.add innerValue (Term.intConst 1)
      (newVal, assignment Γ O v newVal s)

/-- The expression encoder for boolean expressions (`endVisit(Literal)`,
`SMTChecker::compareOperation`, `SMTChecker::booleanOperation`, and the
`Token::Not` case of `endVisit(UnaryOperation)`). -/
def evalBexp (Γ : Var → IntTy) (O : Nat → CheckResult) : BExp → Chk → Term × Chk
  | .blit b, s => (.boolConst b, s)
  | .not a, s =>
      let r := evalBexp Γ O a s
      (Term.not r.1, r.2)
  | .and a b, s =>
      let l := evalBexp Γ O a s
      let r := evalBexp Γ O b l.2
      (Term.and l.1 r.1, r.2)
  | .or a b, s =>
      let l := evalBexp Γ O a s
      let r := evalBexp Γ O b l.2
      (Term.or l.1 r.1, r.2)
  | .eq a b, s =>
      let l := evalAexp Γ O a s
      let r := evalAexp Γ O b l.2
      (Term.eq l.1 r.1, r.2)
  | .ne a b, s =>
      let l := evalAexp Γ O a s
      let r := evalAexp Γ O b l.2
      (Term.ne l.1 r.1, r.2)
  | .lt a b, s =>
      let l := evalAexp Γ O a s
      let r := evalAexp Γ O b l.2
      (Term.lt l.1 r.1, r.2)
  | .le a b, s =>
      let l := evalAexp Γ O a s
      let r := evalAexp Γ O b l.2
      (Term.le l.1 r.1, r.2)
  | .gt a b, s =>
      let l := evalAexp Γ O a s
      let r := evalAexp Γ O b l.2
      (Term.gt l.1 r.1, r.2)
  | .ge a b, s =>
      let l := evalAexp Γ O a s
      let r := evalAexp Γ O b l.2
      (Term.ge l.1 r.1, r.2)

/-- The pattern repeated at every condition site of the traverser:
`_condition.accept(*this)` followed by
`if (isRootFunction()) checkBooleanNotConstant(_condition, description)`,
returning the condition's encoded term and the updated state. -/
def evalConditionWithCheck (Γ : Var → IntTy) (O : Nat → CheckResult) (c : BExp)
    (desc : String) (s : Chk) : Term × Chk :=
  let rc := evalBexp Γ O c s
  (rc.1,
   if isRootFunction rc.2 then
     checkBooleanNotConstant O c.isLiteralNode rc.1 desc rc.2
   else rc.2)

/-- The statement traverser (`visit`/`endVisit` on statements), with
`none` = process abort by an internal `solAssert` (only `mergeVariables`
aborts in this fragment).

* `assign` is an expression statement whose expression is `lhs = rhs` with an
  identifier left-hand side (`endVisit(Assignment)` → `assignment`).
* `ifS` is `visit(IfStatement)`: encode the condition, tautology check at
  root, `visitBranch` the true statement under the condition, then the false
  statement (if any) under its negation, then `mergeVariables` over the
  concatenated touched sets; children are visited only here (the C++ visitor
  returns `false`).  The two `visitBranch` calls are inlined: snapshot,
  push the path condition, visit, pop, snapshot, reset.
* `whileS`/`forS` are `visit(WhileStatement)`/`visit(ForStatement)`.
* `ret` is `endVisit(Return)`; in this fragment the return expression is
  always encoded, so the C++ `knownExpr` guard is passed.
* `assertS`/`requireS` are `visitAssert`/`visitRequire`. -/
def visitStmt (Γ : Var → IntTy) (O : Nat → CheckResult) : Stmt → Chk → Option Chk
  | .skip, s => some s
  | .seq a b, s =>
      match visitStmt Γ O a s with
      | none => none
      | some s1 => visitStmt Γ O b s1
  | .assign v e, s =>
      let r := evalAexp Γ O e s
      some (assignment Γ O v r.1 r.2)
  | .ifS c t (some e), s =>
      let cc := evalConditionWithCheck Γ O c "Condition is always $VALUE." s
      -- visitBranch(_node.trueStatement(), expr(_node.condition()))
      let indicesBeforeTrue := copyVariableIndices cc.2
      match visitStmt Γ O t (pushPathCondition cc.2 cc.1) with
      | none => none
      | some sOutT =>
          let indicesEndTrue := copyVariableIndices (popPathCondition sOutT)
          let s3 := resetVariableIndices (popPathCondition sOutT) indicesBeforeTrue
          -- visitBranch(*_node.falseStatement(), !expr(_node.condition()))
          let indicesBeforeFalse := copyVariableIndices s3
          match visitStmt Γ O e (pushPathCondition s3 (Term.not cc.1)) with
          | none => none
          | some sOutF =>
              let indicesEndFalse := copyVariableIndices (popPathCondition sOutF)
              let s4 := resetVariableIndices (popPathCondition sOutF) indicesBeforeFalse
              mergeVariables (touchedStmt t ++ touchedStmt e) cc.1
                indicesEndTrue indicesEndFalse s4
  | .ifS c t none, s =>
      -- the same visitor with no else branch: indicesEndFalse = copyVariableIndices()
      let cc := evalConditionWithCheck Γ O c "Condition is always $VALUE." s
      let indicesBeforeTrue := copyVariableIndices cc.2
      match visitStmt Γ O t (pushPathCondition cc.2 cc.1) with
      | none => none
      | some sOutT =>
          let indicesEndTrue := copyVariableIndices (popPathCondition sOutT)
          let s3 := resetVariableIndices (popPathCondition sOutT) indicesBeforeTrue
          mergeVariables (touchedStmt t) cc.1
            indicesEndTrue (copyVariableIndices s3) s3
  | .whileS isDoWhile c body, s =>
      let indicesBeforeLoop := copyVariableIndices s
      let touched := touchedStmt (.whileS isDoWhile c body)
      let s1 := resetVariables Γ s touched
      if isDoWhile then
        -- visitBranch(_node.body()) pushes no path condition.
        let indicesBeforeBody := copyVariableIndices s1
        match visitStmt Γ O body s1 with
        | none => none
        | some sOut =>
            let indicesAfterLoop := copyVariableIndices sOut
            let s2 := resetVariableIndices sOut indicesBeforeBody
            let cc := evalConditionWithCheck Γ O c
              "Do-while loop condition is always $VALUE." s2
            let s4 := resetVariableIndices cc.2 indicesBeforeLoop
            -- the condition is not visited again for a do-while
            match mergeVariables touched cc.1 indicesAfterLoop (copyVariableIndices s4) s4 with
            | none => none
            | some s5 => some { s5 with loopExecutionHappened := true }
      else
        let cc := evalConditionWithCheck Γ O c
          "While loop condition is always $VALUE." s1
        -- visitBranch(_node.body(), expr(_node.condition()))
        let indicesBeforeBody := copyVariableIndices cc.2
        match visitStmt Γ O body (pushPathCondition cc.2 cc.1) with
        | none => none
        | some sOut =>
            let indicesAfterLoop := copyVariableIndices (popPathCondition sOut)
            let s3 := resetVariableIndices (popPathCondition sOut) indicesBeforeBody
            let s4 := resetVariableIndices s3 indicesBeforeLoop
            -- visit the condition again in the outer scope
            let rc2 := evalBexp Γ O c s4
            match mergeVariables touched rc2.1 indicesAfterLoop
                (copyVariableIndices rc2.2) rc2.2 with
            | none => none
            | some s5 => some { s5 with loopExecutionHappened := true }
  | .forS init c? iter body, s =>
      -- the init sub-statement is visited once, unconditionally, first
      match visitStmt Γ O init s with
      | none => none
      | some s0 =>
          let indicesBeforeLoop := copyVariableIndices s0
          -- touched set from body, condition and loop expression, but not
          -- the init expression; then sort + unique
          let touched := dedupSort (touchedStmt body ++
            (match c? with
             | some c => touchedB c
             | none => []) ++ touchedStmt iter)
          let s1 := resetVariables Γ s0 touched
          let rc :=
            match c? with
            | some c =>
                let r := evalConditionWithCheck Γ O c
                  "For loop condition is always $VALUE." s1
                (some r.1, r.2)
            | none => (none, s1)
          let s3 := interfacePush rc.2
          let s4 :=
            match rc.1 with
            | some t => addAssertion s3 t
            | none => s3
          match visitStmt Γ O body s4 with
          | none => none
          | some s5 =>
              match visitStmt Γ O iter s5 with
              | none => none
              | some s6 =>
                  let s7 := interfacePop s6
                  let indicesAfterLoop := copyVariableIndices s7
                  let s8 := resetVariableIndices s7 indicesBeforeLoop
                  let rc2 :=
                    match c? with
                    | some c => evalBexp Γ O c s8
                    | none => (Term.boolConst true, s8)
                  -- forCondition := _node.condition() ? expr(cond) : true
                  match mergeVariables touched rc2.1 indicesAfterLoop
                      (copyVariableIndices rc2.2) rc2.2 with
                  | none => none
                  | some s9 => some { s9 with loopExecutionHappened := true }
  | .ret e, s =>
      let r := evalAexp Γ O e s
      if r.2.retParams.length > 1 then
        some (warnE r.2 "Assertion checker does not yet support more than one return value.")
      else
        match r.2.retParams with
        | [p] =>
            let nr := newValue r.2 p
            some (addAssertion nr.2 (Term.eq r.1 nr.1))
        | _ => some r.2
  | .assertS c, s =>
      let rc := evalBexp Γ O c s
      let s2 := checkCondition O (Term.not rc.1) "Assertion violation" none rc.2
      some (addPathImpliedExpression s2 rc.1)
  | .requireS c, s =>
      let cc := evalConditionWithCheck Γ O c "Condition is always $VALUE." s
      some (addPathImpliedExpression cc.2 cc.1)
termination_by structural stmt _ => stmt

/-! ### Observables and invariants used by the verification statements -/

/-- The keys of `m_variables`, in map order. -/
def keysOf (s : Chk) : List Var :=
  s.vars.map Prod.fst

/-- The next free SSA index of a variable (see `SymVar`). -/
def nextOf (s : Chk) (v : Var) : Nat :=
  (s.getVar v).next

/-- The current (live) SSA index of a variable. -/
def curOf (s : Chk) (v : Var) : Nat :=
  (s.getVar v).cur

/-- Well-formedness of the symbolic store: `m_variables` has no duplicate
declarations (it is a `std::map`), and every variable's live index is below
its next-free counter (it was obtained from `increaseIndex`, or is the
initial `cur = 0 < 1 = next`). -/
def VarsOK (s : Chk) : Prop :=
  (keysOf s).Nodup ∧ ∀ p ∈ s.vars, p.2.cur < p.2.next

/-- Every index recorded in the snapshot is below the variable's current
next-free counter (true of every snapshot the traverser takes, and stable
under later steps). -/
def SnapLE (ind : VariableIndices) (s : Chk) : Prop :=
  ∀ p ∈ ind, p.2 < nextOf s p.1

/-- The events a step appended to the trace. -/
def traceDiff (s t : Chk) : List Event :=
  t.trace.drop s.trace.length

/-- Scan an event list tracking the solver scope depth relative to the
starting depth `d`: `none` if some `pop` has no matching earlier `push`, or
if some `check` runs with no currently open `push`; otherwise the final
depth.  `scanScopes 0 es = some 0` says `es` is push/pop balanced and every
`check` in it is preceded by a `push` with no unmatched `pop`. -/
def scanScopes : Nat → List Event → Option Nat
  | d, [] => some d
  | d, .push :: r => scanScopes (d + 1) r
  | d, .pop :: r => if d = 0 then none else scanScopes (d - 1) r
  | d, .check _ :: r => if d = 0 then none else scanScopes d r
  | d, _ :: r => scanScopes d r

/-- Replay an event list against the solver's assertion-scope stack
(head = innermost scope): `push` opens a scope, `pop` discards the innermost
scope and everything asserted in it, `addAssertion` adds to the innermost
scope.  A `check` conjoins every assertion in every frame, so a term that
stays in some frame is assumed by every subsequent query. -/
def applyEvents : List (List Term) → List Event → List (List Term)
  | st, [] => st
  | st, .push :: r => applyEvents ([] :: st) r
  | st, .pop :: r => applyEvents st.tail r
  | st, .assert t :: r =>
      applyEvents
        (match st with
         | top :: rest => (t :: top) :: rest
         | [] => []) r
  | st, _ :: r => applyEvents st r

/-- No side-effecting (`++`) subexpression. -/
def noIncA : AExp → Bool
  | .lit _ => true
  | .var _ => true
  | .add _ a b => noIncA a && noIncA b
  | .sub _ a b => noIncA a && noIncA b
  | .mul _ a b => noIncA a && noIncA b
  | .div _ a b => noIncA a && noIncA b
  | .inc _ => false

/-- The warning events `checkCondition` emits for a given check result. -/
def goalWarn (result : CheckResult) (description : String) : List Event :=
  match result with
  | .satisfiable => [.warn (description ++ " happens here")]
  | .unsatisfiable => []
  | .unknown => [.warn (description ++ " might happen here.")]
  | .conflicting =>
      [.warn "At least two SMT solvers provided conflicting answers. Results might not be sound."]
  | .error => [.warn "Error trying to invoke SMT solver."]

/-- The warning events `checkBooleanNotConstant` emits for a given pair of
results (positive first), following the code's dispatch order: ERROR, then
CONFLICTING, then SAT/SAT, then UNKNOWN, then UNSAT/UNSAT, else the
`$VALUE` substitution. -/
def tautWarn (p n : CheckResult) (description : String) : List Event :=
  if p = .error ∨ n = .error then
    [.warn "Error trying to invoke SMT solver."]
  else if p = .conflicting ∨ n = .conflicting then
    [.warn "At least two SMT solvers provided conflicting answers. Results might not be sound."]
  else if p = .satisfiable ∧ n = .satisfiable then []
  else if p = .unknown ∨ n = .unknown then []
  else if p = .unsatisfiable ∧ n = .unsatisfiable then
    [.warn "Condition unreachable."]
  else
    [.warn (description.replace "$VALUE" (if p = .satisfiable then "true" else "false"))]

/-- The facts every traversal step guarantees: the variable map keeps its
keys, next-free SSA counters never decrease, and the appended trace is a
balanced scope block with every `check` under an open `push`. -/
def StepFacts (s t : Chk) : Prop :=
  keysOf t = keysOf s ∧
  (∀ v, nextOf s v ≤ nextOf t v) ∧
  ∃ δ, t.trace = s.trace ++ δ ∧ scanScopes 0 δ = some 0

/-- No side-effecting (`++`) subexpression. -/
def noIncB : BExp → Bool
  | .blit _ => true
  | .not a => noIncB a
  | .and a b => noIncB a && noIncB b
  | .or a b => noIncB a && noIncB b
  | .eq a b => noIncA a && noIncA b
  | .ne a b => noIncA a && noIncA b
  | .lt a b => noIncA a && noIncA b
  | .le a b => noIncA a && noIncA b
  | .gt a b => noIncA a && noIncA b
  | .ge a b => noIncA a && noIncA b

/-! ### Concrete fixtures used by witnesses and counterexamples -/

/-- An 8-bit unsigned integer type. -/
def tyU8 : IntTy := ⟨false, 8⟩

/-- A type environment giving every declaration the type `uint8`. -/
def envU8 : Var → IntTy := fun _ => tyU8

/-- A solver oracle that answers UNSATISFIABLE to every query. -/
def oracleUnsat : Nat → CheckResult := fun _ => .unsatisfiable

/-- A root-function state with one known variable `0` at SSA index 0 and no
return parameters. -/
def st1 : Chk := ⟨[(0, ⟨0, 1⟩)], [], [], false, 0, 1, []⟩

/-- Like `st1` but with variable `0` as the single return parameter. -/
def st1ret : Chk := ⟨[(0, ⟨0, 1⟩)], [], [], false, 0, 1, [0]⟩

/-- A default state used with `Option.getD` in witnesses. -/
def chkDefault : Chk := ⟨[], [], [], false, 0, 0, []⟩

/-- An oracle answering UNKNOWN to the first query and ERROR afterwards. -/
def oracleUE : Nat → CheckResult := fun k => if k = 0 then .unknown else .error

/-- A solver oracle that answers SATISFIABLE to every query. -/
def oracleSat : Nat → CheckResult := fun _ => .satisfiable

/-! ### Lemmas: the symbolic store -/

theorem lookup_map_keyfix {β γ : Type} (g : Nat → β → γ) (l : List (Nat × β)) (v : Nat) :
    (l.map fun p => (p.1, g p.1 p.2)).lookup v = (l.lookup v).map (g v) := by
  induction l with
  | nil => rfl
  | cons p l ih =>
      obtain ⟨k, b⟩ := p
      by_cases h : v = k
      · subst h
        simp [List.lookup]
      · have hb : (v == k) = false := beq_eq_false_iff_ne.2 h
        simp [List.lookup, hb, ih]

theorem lookup_mem {β : Type} {l : List (Nat × β)} {k : Nat} {b : β}
    (h : l.lookup k = some b) : (k, b) ∈ l := by
  induction l with
  | nil => simp [List.lookup] at h
  | cons p l ih =>
      obtain ⟨a, c⟩ := p
      by_cases hk : k = a
      · subst hk
        simp [List.lookup] at h
        simp [h]
      · have hb : (k == a) = false := beq_eq_false_iff_ne.2 hk
        simp [List.lookup, hb] at h
        exact List.mem_cons_of_mem _ (ih h)

theorem mem_lookup_of_nodup {β : Type} {l : List (Nat × β)} {p : Nat × β}
    (hnd : (l.map Prod.fst).Nodup) (h : p ∈ l) : l.lookup p.1 = some p.2 := by
  induction l with
  | nil => simp at h
  | cons q l ih =>
      obtain ⟨a, c⟩ := q
      simp only [List.map_cons, List.nodup_cons] at hnd
      rcases List.mem_cons.1 h with h | h
      · subst h
        simp [List.lookup]
      · have hne : p.1 ≠ a := by
          intro he
          exact hnd.1 (he ▸ List.mem_map_of_mem Prod.fst h)
        have hb : (p.1 == a) = false := beq_eq_false_iff_ne.2 hne
        simp [List.lookup, hb]
        exact ih hnd.2 h

theorem lookup_setVar (s : Chk) (v w : Var) (sv : SymVar) :
    (s.setVar v sv).vars.lookup w =
      (s.vars.lookup w).map fun old => if w = v then sv else old := by
  simpa using lookup_map_keyfix (fun k old => if k = v then sv else old) s.vars w

theorem lookup_reset (s : Chk) (ind : VariableIndices) (w : Var) :
    (resetVariableIndices s ind).vars.lookup w =
      (s.vars.lookup w).map fun old =>
        match ind.lookup w with
        | some i => { old with cur := i }
        | none => old := by
  simpa using lookup_map_keyfix
    (fun k old => match ind.lookup k with
                  | some i => { old with cur := i }
                  | none => old) s.vars w

theorem lookup_copy (s : Chk) (w : Var) :
    (copyVariableIndices s).lookup w = (s.vars.lookup w).map SymVar.cur := by
  simpa using lookup_map_keyfix (fun _ old => old.cur) s.vars w

theorem keysOf_map_keyfix (g : Nat → SymVar → SymVar) (s : Chk) :
    keysOf { s with vars := s.vars.map fun p => (p.1, g p.1 p.2) } = keysOf s := by
  simp [keysOf]

theorem keysOf_setVar (s : Chk) (v : Var) (sv : SymVar) :
    keysOf (s.setVar v sv) = keysOf s := by
  simp [Chk.setVar, keysOf]

theorem keysOf_reset (s : Chk) (ind : VariableIndices) :
    keysOf (resetVariableIndices s ind) = keysOf s := by
  simp [resetVariableIndices, keysOf]

/-! ### Lemmas: scope scanning -/

theorem scanScopes_append (d : Nat) (a b : List Event) :
    scanScopes d (a ++ b) = (scanScopes d a).bind fun e => scanScopes e b := by
  induction a generalizing d with
  | nil => rfl
  | cons ev r ih =>
      cases ev with
      | push => simp [scanScopes, ih]
      | pop =>
          by_cases h : d = 0 <;> simp [scanScopes, h, ih]
      | check l =>
          by_cases h : d = 0 <;> simp [scanScopes, h, ih]
      | assert t => simp [scanScopes, ih]
      | warn m => simp [scanScopes, ih]

theorem scanScopes_shift (a : List Event) :
    ∀ d e k, scanScopes d a = some e → scanScopes (d + k) a = some (e + k) := by
  induction a with
  | nil =>
      intro d e k h
      simp [scanScopes] at h ⊢
      omega
  | cons ev r ih =>
      intro d e k h
      cases ev with
      | push =>
          simp only [scanScopes] at h ⊢
          have := ih (d + 1) e k h
          have he : d + 1 + k = d + k + 1 := by omega
          rw [← he]
          exact this
      | pop =>
          simp only [scanScopes] at h ⊢
          by_cases hd : d = 0
          · simp [hd] at h
          · rw [if_neg hd] at h
            rw [if_neg (by omega : ¬ d + k = 0)]
            have := ih (d - 1) e k h
            have he : d + k - 1 = d - 1 + k := by omega
            rw [he]
            exact this
      | check l =>
          simp only [scanScopes] at h ⊢
          by_cases hd : d = 0
          · simp [hd] at h
          · rw [if_neg hd] at h
            rw [if_neg (by omega : ¬ d + k = 0)]
            exact ih d e k h
      | assert t =>
          simp only [scanScopes] at h ⊢
          exact ih d e k h
      | warn m =>
          simp only [scanScopes] at h ⊢
          exact ih d e k h

/-! ### Lemmas: step facts -/

theorem stepFacts_refl (s : Chk) : StepFacts s s :=
  ⟨rfl, fun _ => Nat.le_refl _, [], by simp, rfl⟩

theorem stepFacts_trans {s t u : Chk} (h1 : StepFacts s t) (h2 : StepFacts t u) :
    StepFacts s u := by
  obtain ⟨k1, n1, d1, ht1, hs1⟩ := h1
  obtain ⟨k2, n2, d2, ht2, hs2⟩ := h2
  refine ⟨k2.trans k1, fun v => (n1 v).trans (n2 v), d1 ++ d2, ?_, ?_⟩
  · rw [ht2, ht1, List.append_assoc]
  · rw [scanScopes_append, hs1]
    simpa using hs2

theorem stepFacts_traceOnly {s t : Chk} (hv : t.vars = s.vars)
    (hδ : ∃ δ, t.trace = s.trace ++ δ ∧ scanScopes 0 δ = some 0) : StepFacts s t := by
  refine ⟨by simp [keysOf, hv], fun v => ?_, hδ⟩
  simp [nextOf, Chk.getVar, hv]

theorem varsOK_of_vars_eq {s t : Chk} (hv : t.vars = s.vars) (h : VarsOK s) : VarsOK t := by
  obtain ⟨h1, h2⟩ := h
  exact ⟨by simpa [keysOf, hv] using h1, by rw [hv]; exact h2⟩

theorem stepFacts_addAssertion (s : Chk) (t : Term) : StepFacts s (addAssertion s t) :=
  stepFacts_traceOnly rfl ⟨[.assert t], rfl, rfl⟩

theorem stepFacts_warnE (s : Chk) (m : String) : StepFacts s (warnE s m) :=
  stepFacts_traceOnly rfl ⟨[.warn m], rfl, rfl⟩

/-! ### Lemmas: the goal check protocol -/

theorem checkCondition_eq (O : Nat → CheckResult) (cond : Term) (desc : String)
    (add : Option (String × Term)) (s : Chk) :
    checkCondition O cond desc add s =
      { s with
        trace := s.trace ++
          ([.push, .assert (Term.and (currentPathConditions s) cond),
            .check (checkConditionEvalList add s)] ++
           goalWarn (O s.checkCount) desc ++ [.pop]),
        checkCount := s.checkCount + 1 } := by
  cases h : O s.checkCount <;>
    simp [checkCondition, interfacePush, addPathConjoinedExpression, addAssertion,
      checkSatisfiableAndGenerateModel, warnE, interfacePop, goalWarn,
      currentPathConditions, checkConditionEvalList, h]

theorem scanScopes_goalBlock (L : List (String × Term)) (t : Term) (r : CheckResult)
    (desc : String) :
    scanScopes 0 ([Event.push, Event.assert t, Event.check L] ++ goalWarn r desc ++
      [Event.pop]) = some 0 := by
  cases r <;> simp [goalWarn, scanScopes]

theorem stepFacts_checkCondition (O : Nat → CheckResult) (cond : Term) (desc : String)
    (add : Option (String × Term)) (s : Chk) :
    StepFacts s (checkCondition O cond desc add s) := by
  rw [checkCondition_eq]
  exact stepFacts_traceOnly rfl ⟨_, rfl, scanScopes_goalBlock _ _ _ _⟩

theorem checkBooleanNotConstant_eq (O : Nat → CheckResult) (cond : Term) (desc : String)
    (s : Chk) :
    checkBooleanNotConstant O false cond desc s =
      { s with
        trace := s.trace ++
          ([.push, .assert (Term.and (currentPathConditions s) cond), .check [], .pop,
            .push, .assert (Term.and (currentPathConditions s) (Term.not cond)),
            .check [], .pop] ++
           tautWarn (O s.checkCount) (O (s.checkCount + 1)) desc),
        checkCount := s.checkCount + 2 } := by
  cases hp : O s.checkCount <;> cases hn : O (s.checkCount + 1) <;>
    simp [checkBooleanNotConstant, interfacePush, addPathConjoinedExpression,
      addAssertion, checkSatisfiable, checkSatisfiableAndGenerateModel, interfacePop,
      warnE, currentPathConditions, tautWarn, hp, hn]

theorem scanScopes_tautBlock (t1 t2 : Term) (p n : CheckResult) (desc : String) :
    scanScopes 0 ([Event.push, Event.assert t1, Event.check [], Event.pop,
      Event.push, Event.assert t2, Event.check [], Event.pop] ++ tautWarn p n desc) =
      some 0 := by
  unfold tautWarn
  split_ifs <;> simp [scanScopes]

theorem stepFacts_checkBooleanNotConstant (O : Nat → CheckResult) (isLit : Bool)
    (cond : Term) (desc : String) (s : Chk) :
    StepFacts s (checkBooleanNotConstant O isLit cond desc s) := by
  cases isLit with
  | true => exact stepFacts_refl s
  | false =>
      rw [checkBooleanNotConstant_eq]
      exact stepFacts_traceOnly rfl ⟨_, rfl, scanScopes_tautBlock _ _ _ _ _⟩

/-! ### Lemmas: SSA index bookkeeping -/

theorem lookup_isSome_iff {β : Type} (l : List (Nat × β)) (v : Nat) :
    (l.lookup v).isSome = true ↔ v ∈ l.map Prod.fst := by
  induction l with
  | nil => simp [List.lookup]
  | cons p l ih =>
      obtain ⟨a, c⟩ := p
      by_cases h : v = a
      · subst h
        simp [List.lookup]
      · have hb : (v == a) = false := beq_eq_false_iff_ne.2 h
        simp [List.lookup, hb, ih, h]

theorem known_iff_mem_keys (s : Chk) (v : Var) :
    knownVariable s v = true ↔ v ∈ keysOf s :=
  lookup_isSome_iff s.vars v

theorem known_of_keys_eq {s t : Chk} (hk : keysOf t = keysOf s) {v : Var}
    (h : knownVariable s v = true) : knownVariable t v = true := by
  rw [known_iff_mem_keys, hk]
  exact (known_iff_mem_keys s v).1 h

theorem newValue_fst (s : Chk) (v : Var) :
    (newValue s v).1 = Term.var v (nextOf s v) := rfl

theorem newValue_snd (s : Chk) (v : Var) :
    (newValue s v).2 = s.setVar v ((s.getVar v).increaseIndex) := rfl

theorem nextOf_setVar (s : Chk) (v w : Var) (sv : SymVar) :
    nextOf (s.setVar v sv) w =
      match s.vars.lookup w with
      | some old => if w = v then sv.next else old.next
      | none => 0 := by
  rw [nextOf, Chk.getVar, lookup_setVar]
  cases h : s.vars.lookup w <;> by_cases hw : w = v <;> simp [hw]

theorem curOf_setVar (s : Chk) (v w : Var) (sv : SymVar) :
    curOf (s.setVar v sv) w =
      match s.vars.lookup w with
      | some old => if w = v then sv.cur else old.cur
      | none => 0 := by
  rw [curOf, Chk.getVar, lookup_setVar]
  cases h : s.vars.lookup w <;> by_cases hw : w = v <;> simp [hw]

theorem stepFacts_newValue (s : Chk) (v : Var) : StepFacts s (newValue s v).2 := by
  rw [newValue_snd]
  refine ⟨keysOf_setVar s v _, fun w => ?_, [], by simp [Chk.setVar], rfl⟩
  rw [nextOf_setVar]
  by_cases hw : w = v
  · subst hw
    cases h : s.vars.lookup w with
    | none => simp [nextOf, Chk.getVar, h]
    | some old =>
        simp only [h, if_pos rfl]
        simp [nextOf, Chk.getVar, h, SymVar.increaseIndex]
  · cases h : s.vars.lookup w <;> simp [nextOf, Chk.getVar, h, hw]

theorem varsOK_newValue {s : Chk} (v : Var) (h : VarsOK s) : VarsOK (newValue s v).2 := by
  rw [newValue_snd]
  refine ⟨by rw [keysOf_setVar]; exact h.1, ?_⟩
  intro p hp
  simp only [Chk.setVar, List.mem_map] at hp
  obtain ⟨q, hq, rfl⟩ := hp
  by_cases hv : q.1 = v
  · simp [hv, SymVar.increaseIndex]
  · simpa [hv] using h.2 q hq

theorem curOf_newValue_self {s : Chk} {v : Var} (h : knownVariable s v = true) :
    curOf (newValue s v).2 v = nextOf s v := by
  rw [newValue_snd, curOf_setVar]
  rw [knownVariable] at h
  cases hl : s.vars.lookup v with
  | none => rw [hl] at h; simp at h
  | some old => simp [SymVar.increaseIndex, nextOf, Chk.getVar, hl]

theorem curOf_newValue_other {s : Chk} {v w : Var} (h : w ≠ v) :
    curOf (newValue s v).2 w = curOf s w := by
  rw [newValue_snd, curOf_setVar]
  cases hl : s.vars.lookup w <;> simp [h, curOf, Chk.getVar, hl]

theorem nextOf_newValue_self {s : Chk} {v : Var} (h : knownVariable s v = true) :
    nextOf (newValue s v).2 v = nextOf s v + 1 := by
  rw [newValue_snd, nextOf_setVar]
  rw [knownVariable] at h
  cases hl : s.vars.lookup v with
  | none => rw [hl] at h; simp at h
  | some old => simp [SymVar.increaseIndex, nextOf, Chk.getVar, hl]

theorem snapLE_copy {s : Chk} (h : VarsOK s) : SnapLE (copyVariableIndices s) s := by
  intro p hp
  simp only [copyVariableIndices, List.mem_map] at hp
  obtain ⟨q, hq, rfl⟩ := hp
  have hl := mem_lookup_of_nodup h.1 hq
  simp only [nextOf, Chk.getVar, hl, Option.getD_some]
  exact h.2 q hq

theorem snapLE_mono {ind : VariableIndices} {s t : Chk} (h : SnapLE ind s)
    (hm : ∀ v, nextOf s v ≤ nextOf t v) : SnapLE ind t :=
  fun p hp => Nat.lt_of_lt_of_le (h p hp) (hm p.1)

theorem stepFacts_reset (s : Chk) (ind : VariableIndices) :
    StepFacts s (resetVariableIndices s ind) := by
  refine ⟨keysOf_reset s ind, fun w => ?_, [], by simp [resetVariableIndices], rfl⟩
  rw [nextOf, nextOf, Chk.getVar, Chk.getVar, lookup_reset]
  cases h : s.vars.lookup w with
  | none => simp
  | some old => cases hi : ind.lookup w <;> simp [hi]

theorem varsOK_reset {s : Chk} {ind : VariableIndices} (h : VarsOK s)
    (hLE : SnapLE ind s) : VarsOK (resetVariableIndices s ind) := by
  refine ⟨by rw [keysOf_reset]; exact h.1, ?_⟩
  intro p hp
  simp only [resetVariableIndices, List.mem_map] at hp
  obtain ⟨q, hq, rfl⟩ := hp
  cases hi : ind.lookup q.1 with
  | none => simpa using h.2 q hq
  | some i =>
      simp only [hi]
      have hmem : (q.1, i) ∈ ind := lookup_mem hi
      have := hLE _ hmem
      simp only [nextOf, Chk.getVar, mem_lookup_of_nodup h.1 hq, Option.getD_some] at this
      simpa using this

theorem curOf_reset (s : Chk) (ind : VariableIndices) (w : Var) :
    curOf (resetVariableIndices s ind) w =
      match s.vars.lookup w, ind.lookup w with
      | some _, some i => i
      | some old, none => old.cur
      | none, _ => 0 := by
  rw [curOf, Chk.getVar, lookup_reset]
  cases h : s.vars.lookup w <;> cases hi : ind.lookup w <;> simp [hi]

theorem resetVariables_cons (Γ : Var → IntTy) (s : Chk) (v : Var) (vs : List Var) :
    resetVariables Γ s (v :: vs) =
      resetVariables Γ (setUnknownValue Γ (newValue s v).2 v) vs := rfl

theorem vars_setUnknownValue (Γ : Var → IntTy) (s : Chk) (v : Var) :
    (setUnknownValue Γ s v).vars = s.vars := rfl

theorem stepFacts_setUnknownValue (Γ : Var → IntTy) (s : Chk) (v : Var) :
    StepFacts s (setUnknownValue Γ s v) :=
  stepFacts_traceOnly rfl ⟨_, rfl, rfl⟩

theorem resetVariables_ok (Γ : Var → IntTy) (vs : List Var) :
    ∀ s : Chk, StepFacts s (resetVariables Γ s vs) ∧
      (VarsOK s → VarsOK (resetVariables Γ s vs)) := by
  induction vs with
  | nil => exact fun s => ⟨stepFacts_refl s, id⟩
  | cons v vs ih =>
      intro s
      rw [resetVariables_cons]
      have h1 : StepFacts s (setUnknownValue Γ (newValue s v).2 v) :=
        stepFacts_trans (stepFacts_newValue s v)
          (stepFacts_setUnknownValue Γ _ v)
      refine ⟨stepFacts_trans h1 (ih _).1, fun hOK => (ih _).2 ?_⟩
      exact varsOK_of_vars_eq (vars_setUnknownValue Γ _ v) (varsOK_newValue v hOK)

theorem curOf_resetVariables_not_mem (Γ : Var → IntTy) (vs : List Var) :
    ∀ (s : Chk) (v : Var), v ∉ vs → curOf (resetVariables Γ s vs) v = curOf s v := by
  induction vs with
  | nil => intro s v _; rfl
  | cons w vs ih =>
      intro s v hv
      rw [resetVariables_cons]
      have hne : v ≠ w := fun he => hv (he ▸ List.mem_cons_self w vs)
      rw [ih _ v (fun hm => hv (List.mem_cons_of_mem w hm))]
      show curOf (newValue s w).2 v = curOf s v
      exact curOf_newValue_other hne

theorem resetVariables_cur_ge (Γ : Var → IntTy) (vs : List Var) :
    ∀ (s : Chk) (v : Var), v ∈ vs → knownVariable s v = true →
      nextOf s v ≤ curOf (resetVariables Γ s vs) v := by
  induction vs with
  | nil => intro s v hv; simp at hv
  | cons w vs ih =>
      intro s v hv hk
      rw [resetVariables_cons]
      have hstep : StepFacts s (setUnknownValue Γ (newValue s w).2 w) :=
        stepFacts_trans (stepFacts_newValue s w) (stepFacts_setUnknownValue Γ _ w)
      by_cases hmem : v ∈ vs
      · have hk1 : knownVariable (setUnknownValue Γ (newValue s w).2 w) v = true :=
          known_of_keys_eq hstep.1 hk
        exact Nat.le_trans (hstep.2.1 v) (ih _ v hmem hk1)
      · rw [curOf_resetVariables_not_mem Γ vs _ v hmem]
        have hvw : v = w := by
          rcases List.mem_cons.1 hv with h | h
          · exact h
          · exact absurd h hmem
        subst hvw
        show nextOf s v ≤ curOf (newValue s v).2 v
        rw [curOf_newValue_self hk]

/-! ### Lemmas: branch merging -/

theorem mem_insertSorted (x z : Var) (l : List Var) :
    z ∈ insertSorted x l ↔ z = x ∨ z ∈ l := by
  induction l with
  | nil => simp [insertSorted]
  | cons y ys ih =>
      simp only [insertSorted]
      by_cases h1 : x < y
      · simp [h1, List.mem_cons]
      · by_cases h2 : x = y
        · subst h2
          simp [h1, List.mem_cons]
        · simp [h1, h2, List.mem_cons, ih]
          tauto

theorem mem_dedupSort (z : Var) (l : List Var) : z ∈ dedupSort l ↔ z ∈ l := by
  induction l with
  | nil => simp [dedupSort]
  | cons x xs ih =>
      show z ∈ insertSorted x (dedupSort xs) ↔ _
      rw [mem_insertSorted, ih, List.mem_cons]

theorem mergeVariablesFrom_isSome (c : Term) (iT iF : VariableIndices) (l : List Var) :
    ∀ s : Chk, (mergeVariablesFrom c iT iF l s).isSome = true ↔
      ∀ v ∈ l, ∃ ti fi, iT.lookup v = some ti ∧ iF.lookup v = some fi ∧ ti ≠ fi := by
  induction l with
  | nil => intro s; simp [mergeVariablesFrom]
  | cons v rest ih =>
      intro s
      cases ht : iT.lookup v with
      | none =>
          simp only [mergeVariablesFrom, ht, Option.isSome_none, Bool.false_eq_true,
            false_iff]
          intro h
          obtain ⟨ti, fi, hti, _, _⟩ := h v (List.mem_cons_self v rest)
          rw [ht] at hti
          cases hti
      | some ti =>
          cases hf : iF.lookup v with
          | none =>
              simp only [mergeVariablesFrom, ht, hf, Option.isSome_none,
                Bool.false_eq_true, false_iff]
              intro h
              obtain ⟨ti2, fi2, _, hfi, _⟩ := h v (List.mem_cons_self v rest)
              rw [hf] at hfi
              cases hfi
          | some fi =>
              by_cases he : ti = fi
              · simp only [mergeVariablesFrom, ht, hf, if_pos he, Option.isSome_none,
                  Bool.false_eq_true, false_iff]
                intro h
                obtain ⟨ti2, fi2, hti2, hfi2, hne⟩ := h v (List.mem_cons_self v rest)
                rw [ht] at hti2
                rw [hf] at hfi2
                cases hti2
                cases hfi2
                exact hne he
              · simp only [mergeVariablesFrom, ht, hf, if_neg he, ih]
                constructor
                · intro h w hw
                  rcases List.mem_cons.1 hw with rfl | hw
                  · exact ⟨ti, fi, ht, hf, he⟩
                  · exact h w hw
                · intro h w hw
                  exact h w (List.mem_cons_of_mem v hw)

theorem mergeVariablesFrom_ok (c : Term) (iT iF : VariableIndices) (l : List Var) :
    ∀ s s' : Chk, mergeVariablesFrom c iT iF l s = some s' →
      StepFacts s s' ∧ (VarsOK s → VarsOK s') ∧
      (∃ δ, s'.trace = s.trace ++ δ ∧ ∀ ev ∈ δ, ∃ t, ev = Event.assert t) ∧
      ∀ v ∈ l, ∃ ti fi, iT.lookup v = some ti ∧ iF.lookup v = some fi ∧ ti ≠ fi ∧
        ∃ ni, nextOf s v ≤ ni ∧
          Event.assert (Term.eq (Term.var v ni)
            (Term.ite c (Term.var v ti) (Term.var v fi))) ∈ s'.trace := by
  induction l with
  | nil =>
      intro s s' h
      cases h
      exact ⟨stepFacts_refl s, id, ⟨[], by simp⟩, by simp⟩
  | cons v rest ih =>
      intro s s' h
      cases ht : iT.lookup v with
      | none =>
          simp only [mergeVariablesFrom, ht] at h
          cases h
      | some ti =>
          cases hf : iF.lookup v with
          | none =>
              simp only [mergeVariablesFrom, ht, hf] at h
              cases h
          | some fi =>
              by_cases he : ti = fi
              · simp only [mergeVariablesFrom, ht, hf, if_pos he] at h
                cases h
              · simp only [mergeVariablesFrom, ht, hf, if_neg he] at h
                have hstep1 : StepFacts s
                    (addAssertion (newValue s v).2 (Term.eq (newValue s v).1
                      (Term.ite c (valueAtIndex v ti) (valueAtIndex v fi)))) :=
                  stepFacts_trans (stepFacts_newValue s v) (stepFacts_addAssertion _ _)
                obtain ⟨ihF, ihOK, ihA, ihM⟩ := ih _ _ h
                refine ⟨stepFacts_trans hstep1 ihF, ?_, ?_, ?_⟩
                · intro hOK
                  exact ihOK (varsOK_of_vars_eq rfl (varsOK_newValue v hOK))
                · obtain ⟨δ, hδ, hall⟩ := ihA
                  refine ⟨[Event.assert (Term.eq (newValue s v).1
                      (Term.ite c (valueAtIndex v ti) (valueAtIndex v fi)))] ++ δ, ?_, ?_⟩
                  · rw [hδ]
                    simp [addAssertion, newValue_snd, Chk.setVar]
                  · intro ev hev
                    rcases List.mem_append.1 hev with hev | hev
                    · rcases List.mem_singleton.1 hev with rfl
                      exact ⟨_, rfl⟩
                    · exact hall ev hev
                · intro w hw
                  rcases List.mem_cons.1 hw with rfl | hw
                  · refine ⟨ti, fi, ht, hf, he, nextOf s w, Nat.le_refl _, ?_⟩
                    obtain ⟨_, _, δ, hδ, _⟩ := ihF
                    rw [hδ]
                    apply List.mem_append_left
                    rw [newValue_fst]
                    simp [addAssertion, newValue_snd, Chk.setVar, valueAtIndex]
                  · obtain ⟨ti2, fi2, h1, h2, h3, ni, hni, hmem⟩ := ihM w hw
                    exact ⟨ti2, fi2, h1, h2, h3, ni,
                      Nat.le_trans (hstep1.2.1 w) hni, hmem⟩

/-! ### Lemmas: the expression encoder -/

theorem vars_checkCondition (O : Nat → CheckResult) (cond : Term) (desc : String)
    (add : Option (String × Term)) (s : Chk) :
    (checkCondition O cond desc add s).vars = s.vars := by
  rw [checkCondition_eq]

theorem vars_checkUnderOverflow (O : Nat → CheckResult) (value : Term) (ty : IntTy)
    (s : Chk) : (checkUnderOverflow O value ty s).vars = s.vars := by
  rw [checkUnderOverflow, vars_checkCondition, vars_checkCondition]

theorem vars_checkBooleanNotConstant (O : Nat → CheckResult) (isLit : Bool)
    (cond : Term) (desc : String) (s : Chk) :
    (checkBooleanNotConstant O isLit cond desc s).vars = s.vars := by
  cases isLit with
  | true => rfl
  | false => rw [checkBooleanNotConstant_eq]

theorem stepFacts_checkUnderOverflow (O : Nat → CheckResult) (value : Term)
    (ty : IntTy) (s : Chk) : StepFacts s (checkUnderOverflow O value ty s) :=
  stepFacts_trans (stepFacts_checkCondition O _ _ _ s) (stepFacts_checkCondition O _ _ _ _)

theorem assignment_ok (Γ : Var → IntTy) (O : Nat → CheckResult) (v : Var)
    (value : Term) (s : Chk) :
    StepFacts s (assignment Γ O v value s) ∧
      (VarsOK s → VarsOK (assignment Γ O v value s)) := by
  constructor
  · exact stepFacts_trans (stepFacts_checkUnderOverflow O value (Γ v) s)
      (stepFacts_trans (stepFacts_newValue _ v) (stepFacts_addAssertion _ _))
  · intro hOK
    exact varsOK_of_vars_eq rfl
      (varsOK_newValue v (varsOK_of_vars_eq (vars_checkUnderOverflow O value (Γ v) s) hOK))

theorem evalAexp_ok (Γ : Var → IntTy) (O : Nat → CheckResult) (e : AExp) :
    ∀ s : Chk, StepFacts s (evalAexp Γ O e s).2 ∧
      (VarsOK s → VarsOK (evalAexp Γ O e s).2) := by
  induction e with
  | lit n => exact fun s => ⟨stepFacts_refl s, id⟩
  | var v => exact fun s => ⟨stepFacts_refl s, id⟩
  | add ty a b iha ihb =>
      intro s
      refine ⟨stepFacts_trans (iha s).1 (stepFacts_trans (ihb _).1
        (stepFacts_checkUnderOverflow O _ ty _)), fun h => ?_⟩
      exact varsOK_of_vars_eq (vars_checkUnderOverflow O _ ty _) ((ihb _).2 ((iha s).2 h))
  | sub ty a b iha ihb =>
      intro s
      refine ⟨stepFacts_trans (iha s).1 (stepFacts_trans (ihb _).1
        (stepFacts_checkUnderOverflow O _ ty _)), fun h => ?_⟩
      exact varsOK_of_vars_eq (vars_checkUnderOverflow O _ ty _) ((ihb _).2 ((iha s).2 h))
  | mul ty a b iha ihb =>
      intro s
      refine ⟨stepFacts_trans (iha s).1 (stepFacts_trans (ihb _).1
        (stepFacts_checkUnderOverflow O _ ty _)), fun h => ?_⟩
      exact varsOK_of_vars_eq (vars_checkUnderOverflow O _ ty _) ((ihb _).2 ((iha s).2 h))
  | div ty a b iha ihb =>
      intro s
      refine ⟨stepFacts_trans (iha s).1 (stepFacts_trans (ihb _).1
        (stepFacts_trans (stepFacts_checkCondition O _ _ _ _)
          (stepFacts_trans (stepFacts_addAssertion _ _)
            (stepFacts_checkUnderOverflow O _ ty _)))), fun h => ?_⟩
      refine varsOK_of_vars_eq ?_ ((ihb _).2 ((iha s).2 h))
      simp only [evalAexp]
      rw [vars_checkUnderOverflow,
        show ∀ t u, (addAssertion t u).vars = t.vars from fun _ _ => rfl,
        vars_checkCondition]
  | inc v =>
      intro s
      exact assignment_ok Γ O v _ s

theorem evalBexp_ok (Γ : Var → IntTy) (O : Nat → CheckResult) (e : BExp) :
    ∀ s : Chk, StepFacts s (evalBexp Γ O e s).2 ∧
      (VarsOK s → VarsOK (evalBexp Γ O e s).2) := by
  induction e with
  | blit b => exact fun s => ⟨stepFacts_refl s, id⟩
  | not a ih => exact fun s => (ih s)
  | and a b iha ihb =>
      exact fun s => ⟨stepFacts_trans (iha s).1 (ihb _).1, fun h => (ihb _).2 ((iha s).2 h)⟩
  | or a b iha ihb =>
      exact fun s => ⟨stepFacts_trans (iha s).1 (ihb _).1, fun h => (ihb _).2 ((iha s).2 h)⟩
  | eq a b =>
      exact fun s => ⟨stepFacts_trans (evalAexp_ok Γ O a s).1 (evalAexp_ok Γ O b _).1,
        fun h => (evalAexp_ok Γ O b _).2 ((evalAexp_ok Γ O a s).2 h)⟩
  | ne a b =>
      exact fun s => ⟨stepFacts_trans (evalAexp_ok Γ O a s).1 (evalAexp_ok Γ O b _).1,
        fun h => (evalAexp_ok Γ O b _).2 ((evalAexp_ok Γ O a s).2 h)⟩
  | lt a b =>
      exact fun s => ⟨stepFacts_trans (evalAexp_ok Γ O a s).1 (evalAexp_ok Γ O b _).1,
        fun h => (evalAexp_ok Γ O b _).2 ((evalAexp_ok Γ O a s).2 h)⟩
  | le a b =>
      exact fun s => ⟨stepFacts_trans (evalAexp_ok Γ O a s).1 (evalAexp_ok Γ O b _).1,
        fun h => (evalAexp_ok Γ O b _).2 ((evalAexp_ok Γ O a s).2 h)⟩
  | gt a b =>
      exact fun s => ⟨stepFacts_trans (evalAexp_ok Γ O a s).1 (evalAexp_ok Γ O b _).1,
        fun h => (evalAexp_ok Γ O b _).2 ((evalAexp_ok Γ O a s).2 h)⟩
  | ge a b =>
      exact fun s => ⟨stepFacts_trans (evalAexp_ok Γ O a s).1 (evalAexp_ok Γ O b _).1,
        fun h => (evalAexp_ok Γ O b _).2 ((evalAexp_ok Γ O a s).2 h)⟩

theorem evalAexp_vars_noInc (Γ : Var → IntTy) (O : Nat → CheckResult) (e : AExp) :
    ∀ s : Chk, noIncA e = true → (evalAexp Γ O e s).2.vars = s.vars := by
  induction e with
  | lit n => intro s _; rfl
  | var v => intro s _; rfl
  | add ty a b iha ihb =>
      intro s h
      obtain ⟨h1, h2⟩ := Bool.and_eq_true_iff.1 h
      show (checkUnderOverflow O _ ty _).vars = s.vars
      rw [vars_checkUnderOverflow, ihb _ h2, iha _ h1]
  | sub ty a b iha ihb =>
      intro s h
      obtain ⟨h1, h2⟩ := Bool.and_eq_true_iff.1 h
      show (checkUnderOverflow O _ ty _).vars = s.vars
      rw [vars_checkUnderOverflow, ihb _ h2, iha _ h1]
  | mul ty a b iha ihb =>
      intro s h
      obtain ⟨h1, h2⟩ := Bool.and_eq_true_iff.1 h
      show (checkUnderOverflow O _ ty _).vars = s.vars
      rw [vars_checkUnderOverflow, ihb _ h2, iha _ h1]
  | div ty a b iha ihb =>
      intro s h
      obtain ⟨h1, h2⟩ := Bool.and_eq_true_iff.1 h
      show (checkUnderOverflow O _ ty _).vars = s.vars
      rw [vars_checkUnderOverflow]
      show (addAssertion (checkCondition _ _ _ _ _) _).vars = s.vars
      rw [show ∀ t u, (addAssertion t u).vars = t.vars from fun _ _ => rfl,
        vars_checkCondition, ihb _ h2, iha _ h1]
  | inc v =>
      intro s h
      simp [noIncA] at h

theorem evalBexp_vars_noInc (Γ : Var → IntTy) (O : Nat → CheckResult) (e : BExp) :
    ∀ s : Chk, noIncB e = true → (evalBexp Γ O e s).2.vars = s.vars := by
  induction e with
  | blit b => intro s _; rfl
  | not a ih => exact ih
  | and a b iha ihb =>
      intro s h
      obtain ⟨h1, h2⟩ := Bool.and_eq_true_iff.1 h
      show (evalBexp Γ O b _).2.vars = s.vars
      rw [ihb _ h2, iha _ h1]
  | or a b iha ihb =>
      intro s h
      obtain ⟨h1, h2⟩ := Bool.and_eq_true_iff.1 h
      show (evalBexp Γ O b _).2.vars = s.vars
      rw [ihb _ h2, iha _ h1]
  | eq a b =>
      intro s h
      obtain ⟨h1, h2⟩ := Bool.and_eq_true_iff.1 h
      show (evalAexp Γ O b _).2.vars = s.vars
      rw [evalAexp_vars_noInc Γ O b _ h2, evalAexp_vars_noInc Γ O a _ h1]
  | ne a b =>
      intro s h
      obtain ⟨h1, h2⟩ := Bool.and_eq_true_iff.1 h
      show (evalAexp Γ O b _).2.vars = s.vars
      rw [evalAexp_vars_noInc Γ O b _ h2, evalAexp_vars_noInc Γ O a _ h1]
  | lt a b =>
      intro s h
      obtain ⟨h1, h2⟩ := Bool.and_eq_true_iff.1 h
      show (evalAexp Γ O b _).2.vars = s.vars
      rw [evalAexp_vars_noInc Γ O b _ h2, evalAexp_vars_noInc Γ O a _ h1]
  | le a b =>
      intro s h
      obtain ⟨h1, h2⟩ := Bool.and_eq_true_iff.1 h
      show (evalAexp Γ O b _).2.vars = s.vars
      rw [evalAexp_vars_noInc Γ O b _ h2, evalAexp_vars_noInc Γ O a _ h1]
  | gt a b =>
      intro s h
      obtain ⟨h1, h2⟩ := Bool.and_eq_true_iff.1 h
      show (evalAexp Γ O b _).2.vars = s.vars
      rw [evalAexp_vars_noInc Γ O b _ h2, evalAexp_vars_noInc Γ O a _ h1]
  | ge a b =>
      intro s h
      obtain ⟨h1, h2⟩ := Bool.and_eq_true_iff.1 h
      show (evalAexp Γ O b _).2.vars = s.vars
      rw [evalAexp_vars_noInc Γ O b _ h2, evalAexp_vars_noInc Γ O a _ h1]

/-! ### Lemmas: the statement traverser -/

theorem stepFacts_pushPath (s : Chk) (t : Term) : StepFacts s (pushPathCondition s t) :=
  stepFacts_traceOnly rfl ⟨[], by simp [pushPathCondition], rfl⟩

theorem stepFacts_popPath (s : Chk) : StepFacts s (popPathCondition s) :=
  stepFacts_traceOnly rfl ⟨[], by simp [popPathCondition], rfl⟩

theorem stepFacts_taut_ite (c : Prop) [Decidable c] (O : Nat → CheckResult)
    (isLit : Bool) (cond : Term) (desc : String) (r : Chk) :
    StepFacts r (if c then checkBooleanNotConstant O isLit cond desc r else r) := by
  split
  · exact stepFacts_checkBooleanNotConstant O isLit cond desc r
  · exact stepFacts_refl r

theorem vars_taut_ite (c : Prop) [Decidable c] (O : Nat → CheckResult)
    (isLit : Bool) (cond : Term) (desc : String) (r : Chk) :
    (if c then checkBooleanNotConstant O isLit cond desc r else r).vars = r.vars := by
  split
  · exact vars_checkBooleanNotConstant O isLit cond desc r
  · rfl

theorem evalConditionWithCheck_fst (Γ : Var → IntTy) (O : Nat → CheckResult)
    (c : BExp) (desc : String) (s : Chk) :
    (evalConditionWithCheck Γ O c desc s).1 = (evalBexp Γ O c s).1 := rfl

theorem evalConditionWithCheck_ok (Γ : Var → IntTy) (O : Nat → CheckResult)
    (c : BExp) (desc : String) (s : Chk) :
    StepFacts s (evalConditionWithCheck Γ O c desc s).2 ∧
      (VarsOK s → VarsOK (evalConditionWithCheck Γ O c desc s).2) := by
  constructor
  · exact stepFacts_trans (evalBexp_ok Γ O c s).1
      (stepFacts_taut_ite _ O c.isLiteralNode (evalBexp Γ O c s).1 desc (evalBexp Γ O c s).2)
  · intro h
    exact varsOK_of_vars_eq
      (vars_taut_ite _ O c.isLiteralNode (evalBexp Γ O c s).1 desc (evalBexp Γ O c s).2)
      ((evalBexp_ok Γ O c s).2 h)

theorem vars_evalConditionWithCheck_noInc (Γ : Var → IntTy) (O : Nat → CheckResult)
    (c : BExp) (desc : String) (s : Chk) (h : noIncB c = true) :
    (evalConditionWithCheck Γ O c desc s).2.vars = s.vars := by
  show (if isRootFunction (evalBexp Γ O c s).2 = true then
      checkBooleanNotConstant O c.isLiteralNode (evalBexp Γ O c s).1 desc (evalBexp Γ O c s).2
    else (evalBexp Γ O c s).2).vars = s.vars
  rw [vars_taut_ite]
  exact evalBexp_vars_noInc Γ O c s h

theorem scanScopes_asserts :
    ∀ pre : List Event, (∀ ev ∈ pre, ∃ t, ev = Event.assert t) →
    ∀ d, scanScopes d pre = some d := by
  intro pre
  induction pre with
  | nil => intro _ d; rfl
  | cons ev r ih =>
      intro h d
      obtain ⟨t, ht⟩ := h ev (List.mem_cons_self ev r)
      subst ht
      simp only [scanScopes]
      exact ih (fun e he => h e (List.mem_cons_of_mem _ he)) d

theorem scan_scope_wrap (pre mid : List Event)
    (hpre : ∀ ev ∈ pre, ∃ t, ev = Event.assert t)
    (hmid : scanScopes 0 mid = some 0) :
    scanScopes 0 ([Event.push] ++ pre ++ mid ++ [Event.pop]) = some 0 := by
  have h1 : scanScopes 1 mid = some 1 := by
    have := scanScopes_shift mid 0 0 1 hmid
    simpa using this
  rw [scanScopes_append, scanScopes_append, scanScopes_append]
  simp only [show scanScopes 0 [Event.push] = some 1 from rfl, Option.some_bind,
    scanScopes_asserts pre hpre 1, h1]
  rfl

theorem stepFacts_loopFlag (s : Chk) :
    StepFacts s { s with loopExecutionHappened := true } :=
  stepFacts_traceOnly rfl ⟨[], by simp, rfl⟩

theorem visitStmt_ok (Γ : Var → IntTy) (O : Nat → CheckResult) :
    ∀ (stmt : Stmt) (s s' : Chk), visitStmt Γ O stmt s = some s' →
      StepFacts s s' ∧ (VarsOK s → VarsOK s')
  | .skip, s, s', h => by
      cases h
      exact ⟨stepFacts_refl s, id⟩
  | .seq a b, s, s', h => by
      simp only [visitStmt] at h
      split at h
      · simp at h
      · next s1 heq =>
          obtain ⟨Fa, Ka⟩ := visitStmt_ok Γ O a s s1 heq
          obtain ⟨Fb, Kb⟩ := visitStmt_ok Γ O b s1 s' h
          exact ⟨stepFacts_trans Fa Fb, fun hOK => Kb (Ka hOK)⟩
  | .assign v e, s, s', h => by
      simp only [visitStmt] at h
      cases h
      exact ⟨stepFacts_trans (evalAexp_ok Γ O e s).1 (assignment_ok Γ O v _ _).1,
        fun hOK => (assignment_ok Γ O v _ _).2 ((evalAexp_ok Γ O e s).2 hOK)⟩
  | .ifS c t (some e), s, s', h => by
      simp only [visitStmt] at h
      split at h
      · simp at h
      · next sOutT hT =>
          split at h
          · simp at h
          · next sOutF hF =>
              have Fcc := (evalConditionWithCheck_ok Γ O c "Condition is always $VALUE." s).1
              have FT := (visitStmt_ok Γ O t _ _ hT).1
              have F1 : StepFacts s (popPathCondition sOutT) :=
                stepFacts_trans Fcc (stepFacts_trans (stepFacts_pushPath _ _)
                  (stepFacts_trans FT (stepFacts_popPath _)))
              have F2 : StepFacts s (resetVariableIndices (popPathCondition sOutT)
                  (copyVariableIndices (evalConditionWithCheck Γ O c
                    "Condition is always $VALUE." s).2)) :=
                stepFacts_trans F1 (stepFacts_reset _ _)
              have FF := (visitStmt_ok Γ O e _ _ hF).1
              have F3 : StepFacts s (popPathCondition sOutF) :=
                stepFacts_trans F2 (stepFacts_trans (stepFacts_pushPath _ _)
                  (stepFacts_trans FF (stepFacts_popPath _)))
              have F4 : StepFacts s (resetVariableIndices (popPathCondition sOutF)
                  (copyVariableIndices (resetVariableIndices (popPathCondition sOutT)
                    (copyVariableIndices (evalConditionWithCheck Γ O c
                      "Condition is always $VALUE." s).2)))) :=
                stepFacts_trans F3 (stepFacts_reset _ _)
              obtain ⟨Fm, Km, _, _⟩ := mergeVariablesFrom_ok _ _ _ _ _ _ h
              refine ⟨stepFacts_trans F4 Fm, fun hOK => Km ?_⟩
              -- VarsOK chain
              have K0 := (evalConditionWithCheck_ok Γ O c "Condition is always $VALUE." s).2 hOK
              have KT := (visitStmt_ok Γ O t _ _ hT).2 (varsOK_of_vars_eq rfl K0)
              have K1 : VarsOK (popPathCondition sOutT) := varsOK_of_vars_eq rfl KT
              have K2 := varsOK_reset K1 (snapLE_mono (snapLE_copy K0)
                (stepFacts_trans (stepFacts_pushPath _ _)
                  (stepFacts_trans FT (stepFacts_popPath _))).2.1)
              have KF := (visitStmt_ok Γ O e _ _ hF).2 (varsOK_of_vars_eq rfl K2)
              have K3 : VarsOK (popPathCondition sOutF) := varsOK_of_vars_eq rfl KF
              exact varsOK_reset K3 (snapLE_mono (snapLE_copy K2)
                (stepFacts_trans (stepFacts_pushPath _ _)
                  (stepFacts_trans FF (stepFacts_popPath _))).2.1)
  | .ifS c t none, s, s', h => by
      simp only [visitStmt] at h
      split at h
      · simp at h
      · next sOutT hT =>
          have Fcc := (evalConditionWithCheck_ok Γ O c "Condition is always $VALUE." s).1
          have FT := (visitStmt_ok Γ O t _ _ hT).1
          have F1 : StepFacts s (popPathCondition sOutT) :=
            stepFacts_trans Fcc (stepFacts_trans (stepFacts_pushPath _ _)
              (stepFacts_trans FT (stepFacts_popPath _)))
          have F2 : StepFacts s (resetVariableIndices (popPathCondition sOutT)
              (copyVariableIndices (evalConditionWithCheck Γ O c
                "Condition is always $VALUE." s).2)) :=
            stepFacts_trans F1 (stepFacts_reset _ _)
          obtain ⟨Fm, Km, _, _⟩ := mergeVariablesFrom_ok _ _ _ _ _ _ h
          refine ⟨stepFacts_trans F2 Fm, fun hOK => Km ?_⟩
          have K0 := (evalConditionWithCheck_ok Γ O c "Condition is always $VALUE." s).2 hOK
          have KT := (visitStmt_ok Γ O t _ _ hT).2 (varsOK_of_vars_eq rfl K0)
          have K1 : VarsOK (popPathCondition sOutT) := varsOK_of_vars_eq rfl KT
          exact varsOK_reset K1 (snapLE_mono (snapLE_copy K0)
            (stepFacts_trans (stepFacts_pushPath _ _)
              (stepFacts_trans FT (stepFacts_popPath _))).2.1)
  | .whileS isDoWhile c body, s, s', h => by
      simp only [visitStmt] at h
      split at h
      · -- do-while
        split at h
        · simp at h
        · next sOut hB =>
            split at h
            · simp at h
            · next s5 hM =>
                cases h
                set touched := touchedStmt (Stmt.whileS isDoWhile c body) with htc
                set sH := resetVariables Γ s touched with hsH
                set s2r := resetVariableIndices sOut (copyVariableIndices sH) with hs2r
                set cc := evalConditionWithCheck Γ O c
                  "Do-while loop condition is always $VALUE." s2r with hcc
                set s4r := resetVariableIndices cc.2 (copyVariableIndices s) with hs4r
                have Fhav := (resetVariables_ok Γ touched s).1
                have FB := (visitStmt_ok Γ O body sH sOut hB).1
                have F1 : StepFacts s sOut := stepFacts_trans Fhav FB
                have F2 : StepFacts s s2r := stepFacts_trans F1 (stepFacts_reset _ _)
                have Fcc := (evalConditionWithCheck_ok Γ O c
                  "Do-while loop condition is always $VALUE." s2r).1
                have F3 : StepFacts s cc.2 := stepFacts_trans F2 Fcc
                have F4 : StepFacts s s4r := stepFacts_trans F3 (stepFacts_reset _ _)
                obtain ⟨Fm, Km, _, _⟩ := mergeVariablesFrom_ok _ _ _ _ _ _ hM
                refine ⟨stepFacts_trans (stepFacts_trans F4 Fm) (stepFacts_loopFlag _),
                  fun hOK => varsOK_of_vars_eq rfl (Km ?_)⟩
                have Khav := (resetVariables_ok Γ touched s).2 hOK
                have KB := (visitStmt_ok Γ O body sH sOut hB).2 Khav
                have K2 : VarsOK s2r := varsOK_reset KB (snapLE_mono (snapLE_copy Khav) FB.2.1)
                have K3 := (evalConditionWithCheck_ok Γ O c
                  "Do-while loop condition is always $VALUE." s2r).2 K2
                exact varsOK_reset K3 (snapLE_mono (snapLE_copy hOK)
                  (stepFacts_trans (stepFacts_trans F1 (stepFacts_reset _ _)) Fcc).2.1)
      · -- plain while
        split at h
        · simp at h
        · next sOut hB =>
            split at h
            · simp at h
            · next s5 hM =>
                cases h
                set touched := touchedStmt (Stmt.whileS isDoWhile c body) with htc
                set sH := resetVariables Γ s touched with hsH
                set cc := evalConditionWithCheck Γ O c
                  "While loop condition is always $VALUE." sH with hcc
                set s3r := resetVariableIndices (popPathCondition sOut)
                  (copyVariableIndices cc.2) with hs3r
                set s4r := resetVariableIndices s3r (copyVariableIndices s) with hs4r
                have Fhav := (resetVariables_ok Γ touched s).1
                have Fcc := (evalConditionWithCheck_ok Γ O c
                  "While loop condition is always $VALUE." sH).1
                have F1 : StepFacts s cc.2 := stepFacts_trans Fhav Fcc
                have FB := (visitStmt_ok Γ O body (pushPathCondition cc.2 cc.1) sOut hB).1
                have Fbr : StepFacts cc.2 (popPathCondition sOut) :=
                  stepFacts_trans (stepFacts_pushPath _ _)
                    (stepFacts_trans FB (stepFacts_popPath _))
                have F2 : StepFacts s (popPathCondition sOut) := stepFacts_trans F1 Fbr
                have F3 : StepFacts s s3r := stepFacts_trans F2 (stepFacts_reset _ _)
                have F4 : StepFacts s s4r := stepFacts_trans F3 (stepFacts_reset _ _)
                have Fc2 := (evalBexp_ok Γ O c s4r).1
                have F5 : StepFacts s (evalBexp Γ O c s4r).2 := stepFacts_trans F4 Fc2
                obtain ⟨Fm, Km, _, _⟩ := mergeVariablesFrom_ok _ _ _ _ _ _ hM
                refine ⟨stepFacts_trans (stepFacts_trans F5 Fm) (stepFacts_loopFlag _),
                  fun hOK => varsOK_of_vars_eq rfl (Km ?_)⟩
                have Khav := (resetVariables_ok Γ touched s).2 hOK
                have Kcc := (evalConditionWithCheck_ok Γ O c
                  "While loop condition is always $VALUE." sH).2 Khav
                have KB := (visitStmt_ok Γ O body (pushPathCondition cc.2 cc.1) sOut hB).2
                  (varsOK_of_vars_eq rfl Kcc)
                have K1 : VarsOK (popPathCondition sOut) := varsOK_of_vars_eq rfl KB
                have K2 : VarsOK s3r := varsOK_reset K1 (snapLE_mono (snapLE_copy Kcc) Fbr.2.1)
                have K3 : VarsOK s4r := varsOK_reset K2 (snapLE_mono (snapLE_copy hOK)
                  (stepFacts_trans (stepFacts_trans F1 Fbr) (stepFacts_reset _ _)).2.1)
                exact (evalBexp_ok Γ O c s4r).2 K3
  | .forS init c? iter body, s, s', h => by
      cases c? with
      | some c =>
          simp only [visitStmt] at h
          split at h
          · simp at h
          · next s0 hI =>
              split at h
              · simp at h
              · next s5 hB =>
                  split at h
                  · simp at h
                  · next s6 hIt =>
                      split at h
                      · simp at h
                      · next s9 hM =>
                          cases h
                          set touched := dedupSort (touchedStmt body ++ touchedB c ++
                            touchedStmt iter) with htc
                          set sH := resetVariables Γ s0 touched with hsH
                          set cc := evalConditionWithCheck Γ O c
                            "For loop condition is always $VALUE." sH with hcc
                          set sIn := addAssertion (interfacePush cc.2) cc.1 with hsIn
                          set s7 := interfacePop s6 with hs7
                          set s8 := resetVariableIndices s7 (copyVariableIndices s0) with hs8
                          obtain ⟨FI, KI⟩ := visitStmt_ok Γ O init s s0 hI
                          have Fhav := (resetVariables_ok Γ touched s0).1
                          have Fcc := (evalConditionWithCheck_ok Γ O c
                            "For loop condition is always $VALUE." sH).1
                          have F1 : StepFacts s0 cc.2 := stepFacts_trans Fhav Fcc
                          obtain ⟨FB, KB⟩ := visitStmt_ok Γ O body sIn s5 hB
                          obtain ⟨FIt, KIt⟩ := visitStmt_ok Γ O iter s5 s6 hIt
                          have Fscope : StepFacts cc.2 s7 := by
                            obtain ⟨kB, nB, dB, htB, hsB⟩ := FB
                            obtain ⟨kI2, nI2, dI2, htI2, hsI2⟩ := FIt
                            have hkeys : keysOf s7 = keysOf cc.2 := by
                              have h1 : keysOf sIn = keysOf cc.2 := rfl
                              have h2 : keysOf s7 = keysOf s6 := rfl
                              rw [h2, kI2, kB, h1]
                            refine ⟨hkeys, fun v => Nat.le_trans (nB v) (nI2 v), ?_⟩
                            refine ⟨[Event.push, Event.assert cc.1] ++ dB ++ dI2 ++
                              [Event.pop], ?_, ?_⟩
                            · show s6.trace ++ [Event.pop] = _
                              rw [htI2, htB, hsIn]
                              simp [addAssertion, interfacePush, List.append_assoc]
                            · have hmid : scanScopes 0 (dB ++ dI2) = some 0 := by
                                rw [scanScopes_append, hsB]
                                simpa using hsI2
                              have := scan_scope_wrap [Event.assert cc.1] (dB ++ dI2)
                                (fun ev hev => by
                                  rcases List.mem_singleton.1 hev with rfl
                                  exact ⟨_, rfl⟩) hmid
                              simpa [List.append_assoc] using this
                          have F2 : StepFacts s0 s7 := stepFacts_trans F1 Fscope
                          have F3 : StepFacts s0 s8 := stepFacts_trans F2 (stepFacts_reset _ _)
                          have Fc2 := (evalBexp_ok Γ O c s8).1
                          have F4 : StepFacts s0 (evalBexp Γ O c s8).2 :=
                            stepFacts_trans F3 Fc2
                          obtain ⟨Fm, Km, _, _⟩ := mergeVariablesFrom_ok _ _ _ _ _ _ hM
                          refine ⟨stepFacts_trans FI (stepFacts_trans
                            (stepFacts_trans F4 Fm) (stepFacts_loopFlag _)),
                            fun hOK => varsOK_of_vars_eq rfl (Km ?_)⟩
                          have Khav := (resetVariables_ok Γ touched s0).2 (KI hOK)
                          have Kcc := (evalConditionWithCheck_ok Γ O c
                            "For loop condition is always $VALUE." sH).2 Khav
                          have KB2 := KB (varsOK_of_vars_eq rfl Kcc)
                          have KIt2 := KIt KB2
                          have Kpop : VarsOK s7 := varsOK_of_vars_eq rfl KIt2
                          have K3 : VarsOK s8 := varsOK_reset Kpop
                            (snapLE_mono (snapLE_copy (KI hOK))
                              (stepFacts_trans F1 Fscope).2.1)
                          exact (evalBexp_ok Γ O c s8).2 K3
      | none =>
          simp only [visitStmt, List.append_nil] at h
          split at h
          · simp at h
          · next s0 hI =>
              split at h
              · simp at h
              · next s5 hB =>
                  split at h
                  · simp at h
                  · next s6 hIt =>
                      split at h
                      · simp at h
                      · next s9 hM =>
                          cases h
                          set touched := dedupSort (touchedStmt body ++
                            touchedStmt iter) with htc
                          set sH := resetVariables Γ s0 touched with hsH
                          set sIn := interfacePush sH with hsIn
                          set s7 := interfacePop s6 with hs7
                          set s8 := resetVariableIndices s7 (copyVariableIndices s0) with hs8
                          obtain ⟨FI, KI⟩ := visitStmt_ok Γ O init s s0 hI
                          have Fhav := (resetVariables_ok Γ touched s0).1
                          obtain ⟨FB, KB⟩ := visitStmt_ok Γ O body sIn s5 hB
                          obtain ⟨FIt, KIt⟩ := visitStmt_ok Γ O iter s5 s6 hIt
                          have Fscope : StepFacts sH s7 := by
                            obtain ⟨kB, nB, dB, htB, hsB⟩ := FB
                            obtain ⟨kI2, nI2, dI2, htI2, hsI2⟩ := FIt
                            have hkeys : keysOf s7 = keysOf sH := by
                              have h2 : keysOf s7 = keysOf s6 := rfl
                              rw [h2, kI2, kB]
                              rfl
                            refine ⟨hkeys, fun v => Nat.le_trans (nB v) (nI2 v), ?_⟩
                            refine ⟨[Event.push] ++ dB ++ dI2 ++ [Event.pop], ?_, ?_⟩
                            · show s6.trace ++ [Event.pop] = _
                              rw [htI2, htB, hsIn]
                              simp [interfacePush, List.append_assoc]
                            · have hmid : scanScopes 0 (dB ++ dI2) = some 0 := by
                                rw [scanScopes_append, hsB]
                                simpa using hsI2
                              have := scan_scope_wrap [] (dB ++ dI2)
                                (fun ev hev => by simp at hev) hmid
                              simpa [List.append_assoc] using this
                          have F2 : StepFacts s0 s7 := stepFacts_trans Fhav Fscope
                          have F3 : StepFacts s0 s8 := stepFacts_trans F2 (stepFacts_reset _ _)
                          obtain ⟨Fm, Km, _, _⟩ := mergeVariablesFrom_ok _ _ _ _ _ _ hM
                          refine ⟨stepFacts_trans FI (stepFacts_trans
                            (stepFacts_trans F3 Fm) (stepFacts_loopFlag _)),
                            fun hOK => varsOK_of_vars_eq rfl (Km ?_)⟩
                          have Khav := (resetVariables_ok Γ touched s0).2 (KI hOK)
                          have KB2 := KB (varsOK_of_vars_eq rfl Khav)
                          have KIt2 := KIt KB2
                          have Kpop : VarsOK s7 := varsOK_of_vars_eq rfl KIt2
                          exact varsOK_reset Kpop (snapLE_mono (snapLE_copy (KI hOK))
                            (stepFacts_trans Fhav Fscope).2.1)
  | .ret e, s, s', h => by
      simp only [visitStmt] at h
      split at h
      · cases h
        exact ⟨stepFacts_trans (evalAexp_ok Γ O e s).1 (stepFacts_warnE _ _),
          fun hOK => varsOK_of_vars_eq rfl ((evalAexp_ok Γ O e s).2 hOK)⟩
      · split at h
        · next p hp =>
            cases h
            exact ⟨stepFacts_trans (evalAexp_ok Γ O e s).1
              (stepFacts_trans (stepFacts_newValue _ p) (stepFacts_addAssertion _ _)),
              fun hOK => varsOK_of_vars_eq rfl
                (varsOK_newValue p ((evalAexp_ok Γ O e s).2 hOK))⟩
        · cases h
          exact ⟨(evalAexp_ok Γ O e s).1, (evalAexp_ok Γ O e s).2⟩
  | .assertS c, s, s', h => by
      simp only [visitStmt] at h
      cases h
      refine ⟨stepFacts_trans (evalBexp_ok Γ O c s).1
        (stepFacts_trans (stepFacts_checkCondition O _ _ _ _) (stepFacts_addAssertion _ _)),
        fun hOK => varsOK_of_vars_eq ?_ ((evalBexp_ok Γ O c s).2 hOK)⟩
      show (checkCondition O _ _ _ _).vars = _
      rw [vars_checkCondition]
  | .requireS c, s, s', h => by
      simp only [visitStmt] at h
      cases h
      exact ⟨stepFacts_trans (evalConditionWithCheck_ok Γ O c _ s).1
        (stepFacts_addAssertion _ _),
        fun hOK => varsOK_of_vars_eq rfl ((evalConditionWithCheck_ok Γ O c _ s).2 hOK)⟩
termination_by structural stmt _ _ _ => stmt

/-! ### Lemmas: integer division rounding -/

theorem fdiv_eq_tdiv_of_nonneg {a b : Int} (ha : 0 ≤ a) (hb : 0 ≤ b) :
    a.fdiv b = a.tdiv b := by
  rw [Int.fdiv_eq_ediv a hb, Int.tdiv_eq_ediv ha hb]

theorem signed_case_split_eq_tdiv (l r : Int) :
    (if 0 ≤ l then (if 0 ≤ r then l.fdiv r else -(l.fdiv (-r)))
     else (if 0 ≤ r then -((-l).fdiv r) else (-l).fdiv (-r))) = l.tdiv r := by
  by_cases hl : 0 ≤ l <;> by_cases hr : 0 ≤ r
  · rw [if_pos hl, if_pos hr, fdiv_eq_tdiv_of_nonneg hl hr]
  · rw [if_pos hl, if_neg hr,
      fdiv_eq_tdiv_of_nonneg hl (by omega : (0:Int) ≤ -r), Int.tdiv_neg, neg_neg]
  · rw [if_neg hl, if_pos hr,
      fdiv_eq_tdiv_of_nonneg (by omega : (0:Int) ≤ -l) hr, Int.neg_tdiv, neg_neg]
  · rw [if_neg hl, if_neg hr,
      fdiv_eq_tdiv_of_nonneg (by omega : (0:Int) ≤ -l) (by omega : (0:Int) ≤ -r),
      Int.neg_tdiv, Int.tdiv_neg, neg_neg]

/-! ### Lemmas: trace differences and assertion-stack replay -/

theorem traceDiff_eq {s t : Chk} (δ : List Event) (h : t.trace = s.trace ++ δ) :
    traceDiff s t = δ := by
  rw [traceDiff, h, List.drop_left]

theorem applyEvents_warns (w : List Event) :
    ∀ st, (∀ ev ∈ w, ∃ m, ev = Event.warn m) → applyEvents st w = st := by
  induction w with
  | nil => intro st _; rfl
  | cons ev r ih =>
      intro st h
      obtain ⟨m, hm⟩ := h ev (List.mem_cons_self ev r)
      subst hm
      exact ih st fun e he => h e (List.mem_cons_of_mem _ he)

theorem tautWarn_warns (p n : CheckResult) (desc : String) :
    ∀ ev ∈ tautWarn p n desc, ∃ m, ev = Event.warn m := by
  unfold tautWarn
  split_ifs <;> intro ev hev <;> simp at hev <;> exact ⟨_, hev⟩

theorem goalWarn_warns (r : CheckResult) (desc : String) :
    ∀ ev ∈ goalWarn r desc, ∃ m, ev = Event.warn m := by
  cases r <;> intro ev hev <;> simp [goalWarn] at hev <;> exact ⟨_, hev⟩

theorem applyEvents_append (a b : List Event) :
    ∀ st, applyEvents st (a ++ b) = applyEvents (applyEvents st a) b := by
  induction a with
  | nil => intro st; rfl
  | cons ev r ih =>
      intro st
      cases ev <;> simp only [List.cons_append, applyEvents] <;> exact ih _

theorem applyEvents_goalBlock (t : Term) (L : List (String × Term)) (r : CheckResult)
    (desc : String) (st : List (List Term)) :
    applyEvents st ([Event.push, Event.assert t, Event.check L] ++ goalWarn r desc ++
      [Event.pop]) = st := by
  rw [applyEvents_append, applyEvents_append]
  rw [applyEvents_warns (goalWarn r desc) _ (goalWarn_warns r desc)]
  rfl

theorem applyEvents_tautBlock (t1 t2 : Term) (p n : CheckResult) (desc : String)
    (st : List (List Term)) :
    applyEvents st ([Event.push, Event.assert t1, Event.check [], Event.pop,
      Event.push, Event.assert t2, Event.check [], Event.pop] ++ tautWarn p n desc) = st := by
  rw [applyEvents_append]
  rw [applyEvents_warns (tautWarn p n desc) _ (tautWarn_warns p n desc)]
  rfl

/-- A term sitting in the bottom solver frame survives any later event
sequence whose pops and checks all happen under a matching open push
(`scanScopes d δ = some d'`, with `d` open scopes above the bottom frame):
the replayed stack still ends in a bottom frame containing the term. -/
theorem applyEvents_base_persist (δ : List Event) :
    ∀ (d d' : Nat) (top : List (List Term)) (base : List Term),
      top.length = d → scanScopes d δ = some d' →
      ∃ top' base', applyEvents (top ++ [base]) δ = top' ++ [base'] ∧
        top'.length = d' ∧ ∀ x ∈ base, x ∈ base' := by
  induction δ with
  | nil =>
      intro d d' top base hlen hscan
      have hd : (some d : Option Nat) = some d' := hscan
      cases hd
      exact ⟨top, base, rfl, hlen, fun x hx => hx⟩
  | cons ev r ih =>
      intro d d' top base hlen hscan
      cases ev with
      | push =>
          have hscan' : scanScopes (d + 1) r = some d' := hscan
          exact ih (d + 1) d' ([] :: top) base (by simp [hlen]) hscan'
      | pop =>
          cases d with
          | zero =>
              have hscan' : (none : Option Nat) = some d' := hscan
              cases hscan'
          | succ k =>
              have hscan' : scanScopes k r = some d' := hscan
              cases top with
              | nil => cases hlen
              | cons f top0 =>
                  have hlen' : top0.length = k := by simpa using hlen
                  exact ih k d' top0 base hlen' hscan'
      | check L =>
          cases d with
          | zero =>
              have hscan' : (none : Option Nat) = some d' := hscan
              cases hscan'
          | succ k =>
              have hscan' : scanScopes (k + 1) r = some d' := hscan
              exact ih (k + 1) d' top base hlen hscan'
      | assert t =>
          have hscan' : scanScopes d r = some d' := hscan
          cases top with
          | nil =>
              obtain ⟨top', base', h1, h2, h3⟩ := ih d d' [] (t :: base) hlen hscan'
              exact ⟨top', base', h1, h2, fun x hx => h3 x (List.mem_cons_of_mem _ hx)⟩
          | cons f top0 =>
              exact ih d d' ((t :: f) :: top0) base (by simpa using hlen) hscan'
      | warn m =>
          have hscan' : scanScopes d r = some d' := hscan
          exact ih d d' top base hlen hscan'

theorem pathConditions_checkCondition (O : Nat → CheckResult) (cond : Term)
    (desc : String) (add : Option (String × Term)) (s : Chk) :
    (checkCondition O cond desc add s).pathConditions = s.pathConditions := by
  rw [checkCondition_eq]

theorem pathConditions_checkBooleanNotConstant (O : Nat → CheckResult) (isLit : Bool)
    (cond : Term) (desc : String) (s : Chk) :
    (checkBooleanNotConstant O isLit cond desc s).pathConditions = s.pathConditions := by
  cases isLit with
  | true => rfl
  | false => rw [checkBooleanNotConstant_eq]

/-! ### The claims -/

/-- C3: for a signed integer common type, `SMTChecker::division` encodes the
quotient as `ite(L≥0, ite(R≥0, L/R, −(L/(−R))), ite(R≥0, −((−L)/R), (−L)/(−R)))`
over SMT integer division (which rounds toward `-∞`), and for every `L` and
every nonzero `R` this term evaluates to the quotient of `L` by `R` rounded
toward zero (`Int.tdiv`); for an unsigned common type the encoded value is
the raw SMT division `L/R`. -/
theorem division_rounds_toward_zero :
    (∀ (ty : IntTy) (left right : Term), ty.isSigned = true →
        division left right ty =
          Term.ite (Term.ge left (Term.intConst 0))
            (Term.ite (Term.ge right (Term.intConst 0))
              (Term.idiv left right)
              (Term.sub (Term.intConst 0)
                (Term.idiv left (Term.sub (Term.intConst 0) right))))
            (Term.ite (Term.ge right (Term.intConst 0))
              (Term.sub (Term.intConst 0)
                (Term.idiv (Term.sub (Term.intConst 0) left) right))
              (Term.idiv (Term.sub (Term.intConst 0) left)
                (Term.sub (Term.intConst 0) right)))) ∧
    (∀ (ty : IntTy) (l r : Int) (env : Var → Nat → Int), ty.isSigned = true → r ≠ 0 →
        Term.evalI env (division (Term.intConst l) (Term.intConst r) ty) = l.tdiv r) ∧
    (∀ (ty : IntTy) (left right : Term), ty.isSigned = false →
        division left right ty = Term.idiv left right) := by
  refine ⟨fun ty left right hs => by rw [division, if_pos hs], fun ty l r env hs _ => ?_,
    fun ty left right hs => by
      rw [division, if_neg]
      rw [hs]
      exact Bool.false_ne_true⟩
  rw [division, if_pos hs]
  have heval : Term.evalI env
      (Term.ite (Term.ge (Term.intConst l) (Term.intConst 0))
        (Term.ite (Term.ge (Term.intConst r) (Term.intConst 0))
          (Term.idiv (Term.intConst l) (Term.intConst r))
          (Term.sub (Term.intConst 0)
            (Term.idiv (Term.intConst l) (Term.sub (Term.intConst 0) (Term.intConst r)))))
        (Term.ite (Term.ge (Term.intConst r) (Term.intConst 0))
          (Term.sub (Term.intConst 0)
            (Term.idiv (Term.sub (Term.intConst 0) (Term.intConst l)) (Term.intConst r)))
          (Term.idiv (Term.sub (Term.intConst 0) (Term.intConst l))
            (Term.sub (Term.intConst 0) (Term.intConst r))))) =
      (if 0 ≤ l then (if 0 ≤ r then l.fdiv r else -(l.fdiv (-r)))
       else (if 0 ≤ r then -((-l).fdiv r) else (-l).fdiv (-r))) := by
    by_cases hl : 0 ≤ l <;> by_cases hr : 0 ≤ r <;>
      simp [Term.evalI, Term.evalB, hl, hr, zero_sub]
  rw [heval, signed_case_split_eq_tdiv]

/-- Witness for C3 at `L = -7`, `R = 2`: floor division would give `-4`, the
encoded term gives the truncated quotient `-3`. -/
theorem division_rounds_toward_zero_witness :
    Term.evalI (fun _ _ => 0)
        (division (Term.intConst (-7)) (Term.intConst 2) ⟨true, 8⟩) =
      Int.tdiv (-7) 2 ∧ Int.tdiv (-7) 2 = -3 ∧ Int.fdiv (-7) 2 = -4 :=
  ⟨division_rounds_toward_zero.2.1 ⟨true, 8⟩ (-7) 2 (fun _ _ => 0) rfl (by decide),
   by decide, by decide⟩

/-- C9 counterexample: a return statement in a function with zero return
parameters leaves the state untouched — in particular no "unsupported"
warning is emitted, contradicting the claim that every case other than
exactly one return parameter warns. -/
theorem return_zero_params_silent :
    visitStmt envU8 oracleUnsat (.ret (.lit 1)) st1 = some st1 ∧
      ∀ m, Event.warn m ∉ st1.trace := by
  refine ⟨by decide, fun m hm => ?_⟩
  simp [st1] at hm

/-- C9 (amended): `endVisit(Return)` with exactly one return parameter bumps
the parameter's SSA index and asserts `encode(returnExpr) == p_new`; with
more than one return parameter it warns unsupported; with zero return
parameters it does nothing (no warning, no assertion). -/
theorem return_handler_cases (Γ : Var → IntTy) (O : Nat → CheckResult) (e : AExp)
    (s : Chk) :
    (∀ p, (evalAexp Γ O e s).2.retParams = [p] →
        visitStmt Γ O (.ret e) s =
          some (addAssertion (newValue (evalAexp Γ O e s).2 p).2
            (Term.eq (evalAexp Γ O e s).1
              (Term.var p (nextOf (evalAexp Γ O e s).2 p)))) ∧
        (knownVariable (evalAexp Γ O e s).2 p = true →
          curOf (newValue (evalAexp Γ O e s).2 p).2 p = nextOf (evalAexp Γ O e s).2 p)) ∧
    ((evalAexp Γ O e s).2.retParams.length > 1 →
        visitStmt Γ O (.ret e) s =
          some (warnE (evalAexp Γ O e s).2
            "Assertion checker does not yet support more than one return value.")) ∧
    ((evalAexp Γ O e s).2.retParams = [] →
        visitStmt Γ O (.ret e) s = some (evalAexp Γ O e s).2) := by
  refine ⟨fun p hp => ⟨?_, fun hk => curOf_newValue_self hk⟩, fun hlen => ?_, fun hnil => ?_⟩
  · simp only [visitStmt, hp]
    rw [if_neg (by simp)]
    rfl
  · simp only [visitStmt]
    rw [if_pos hlen]
  · simp only [visitStmt, hnil]
    rw [if_neg (by simp)]

/-- Witness for C9: the one-return-parameter case at a concrete input. -/
theorem return_handler_cases_witness :
    (visitStmt envU8 oracleUnsat (.ret (.lit 1)) st1ret =
      some (addAssertion (newValue (evalAexp envU8 oracleUnsat (.lit 1) st1ret).2 0).2
        (Term.eq (evalAexp envU8 oracleUnsat (.lit 1) st1ret).1
          (Term.var 0 (nextOf (evalAexp envU8 oracleUnsat (.lit 1) st1ret).2 0)))) ∧
      (knownVariable (evalAexp envU8 oracleUnsat (.lit 1) st1ret).2 0 = true →
        curOf (newValue (evalAexp envU8 oracleUnsat (.lit 1) st1ret).2 0).2 0 =
          nextOf (evalAexp envU8 oracleUnsat (.lit 1) st1ret).2 0)) ∧
      visitStmt envU8 oracleUnsat (.ret (.lit 2)) st1 = some st1 :=
  ⟨(return_handler_cases envU8 oracleUnsat (.lit 1) st1ret).1 0 rfl,
   (return_handler_cases envU8 oracleUnsat (.lit 2) st1).2.2 rfl⟩

/-- C6 counterexample: with the positive check returning UNKNOWN and the
negative check returning ERROR, the code emits the SMT-solver-error warning,
while the claim's table says nothing is emitted when either result is
UNKNOWN. -/
theorem tautcheck_unknown_error_warns :
    oracleUE st1.checkCount = CheckResult.unknown ∧
      Event.warn "Error trying to invoke SMT solver." ∈
        (checkBooleanNotConstant oracleUE false (Term.var 0 0)
          "Condition is always $VALUE." st1).trace := by
  constructor
  · decide
  · decide

/-- C6 (amended): `checkBooleanNotConstant` performs no solver query when the
condition node is a literal; otherwise it runs two successive push/pop-scoped
satisfiability checks of `pathCondition ∧ cond` and `pathCondition ∧ ¬cond`
and dispatches on the pair of results with the code's precedence: the
SMT-solver-error warning when either result is ERROR; otherwise the
conflicting-solvers warning when either result is CONFLICTING; nothing when
both are SAT; otherwise nothing when either is UNKNOWN; "Condition
unreachable." when both are UNSAT; and the `$VALUE` substitution into the
template for the SAT/UNSAT mixes. -/
theorem tautology_check_dispatch (O : Nat → CheckResult) (cond : Term) (desc : String)
    (s : Chk) (p n : CheckResult) (hp : O s.checkCount = p)
    (hn : O (s.checkCount + 1) = n) :
    checkBooleanNotConstant O true cond desc s = s ∧
    checkBooleanNotConstant O false cond desc s =
      { s with
        trace := s.trace ++
          ([.push, .assert (Term.and (currentPathConditions s) cond), .check [], .pop,
            .push, .assert (Term.and (currentPathConditions s) (Term.not cond)),
            .check [], .pop] ++ tautWarn p n desc),
        checkCount := s.checkCount + 2 } ∧
    ((p = .error ∨ n = .error) →
      tautWarn p n desc = [.warn "Error trying to invoke SMT solver."]) ∧
    (p ≠ .error → n ≠ .error → (p = .conflicting ∨ n = .conflicting) →
      tautWarn p n desc =
        [.warn "At least two SMT solvers provided conflicting answers. Results might not be sound."]) ∧
    (p = .satisfiable → n = .satisfiable → tautWarn p n desc = []) ∧
    (p ≠ .error → n ≠ .error → p ≠ .conflicting → n ≠ .conflicting →
      (p = .unknown ∨ n = .unknown) → tautWarn p n desc = []) ∧
    (p = .unsatisfiable → n = .unsatisfiable →
      tautWarn p n desc = [.warn "Condition unreachable."]) ∧
    (p = .satisfiable → n = .unsatisfiable →
      tautWarn p n desc = [.warn (desc.replace "$VALUE" "true")]) ∧
    (p = .unsatisfiable → n = .satisfiable →
      tautWarn p n desc = [.warn (desc.replace "$VALUE" "false")]) := by
  subst hp
  subst hn
  refine ⟨rfl, checkBooleanNotConstant_eq O cond desc s, ?_, ?_, ?_, ?_, ?_, ?_, ?_⟩ <;>
    cases hp2 : O s.checkCount <;> cases hn2 : O (s.checkCount + 1) <;>
      simp [tautWarn]

/-- Witness for C6: the UNKNOWN/ERROR pair at a concrete input takes the
ERROR row. -/
theorem tautology_check_dispatch_witness :
    tautWarn CheckResult.unknown CheckResult.error "Condition is always $VALUE." =
      [Event.warn "Error trying to invoke SMT solver."] :=
  (tautology_check_dispatch oracleUE (Term.var 0 0) "Condition is always $VALUE." st1
    CheckResult.unknown CheckResult.error (by decide) (by decide)).2.2.1
    (Or.inr rfl)

/-- C4: for `require(cond)` no satisfiability goal is checked on the
condition itself — the checker asserts only the implication
`pathCondition → cond`, and at the root function it additionally runs the
tautology/contradiction check (whose two queries are push/pop scoped and
leave nothing asserted); for `assert(cond)` the checker checks the goal
`¬cond` under the description "Assertion violation" via the goal check
protocol (warning "Assertion violation happens here" when satisfiable) and
afterwards asserts `pathCondition → cond`, which is the only assertion that
survives the statement, so later code may rely on it. -/
theorem assert_require_protocol (Γ : Var → IntTy) (O : Nat → CheckResult) (c : BExp)
    (s : Chk) :
    let q := (evalBexp Γ O c s).1
    let r := (evalBexp Γ O c s).2
    let pc := currentPathConditions r
    let requireFinal := addPathImpliedExpression
      (evalConditionWithCheck Γ O c "Condition is always $VALUE." s).2 q
    let assertFinal := addPathImpliedExpression
      (checkCondition O (Term.not q) "Assertion violation" none r) q
    (visitStmt Γ O (.requireS c) s = some requireFinal) ∧
    (isRootFunction r = false →
      traceDiff r requireFinal = [.assert (Term.implies pc q)]) ∧
    (isRootFunction r = true → c.isLiteralNode = false →
      traceDiff r requireFinal =
        [.push, .assert (Term.and pc q), .check [], .pop,
         .push, .assert (Term.and pc (Term.not q)), .check [], .pop] ++
        tautWarn (O r.checkCount) (O (r.checkCount + 1)) "Condition is always $VALUE." ++
        [.assert (Term.implies pc q)]) ∧
    (applyEvents [[]] (traceDiff r requireFinal) = [[Term.implies pc q]]) ∧
    (visitStmt Γ O (.assertS c) s = some assertFinal) ∧
    (traceDiff r assertFinal =
      [.push, .assert (Term.and pc (Term.not q)),
       .check (checkConditionEvalList none r)] ++
      goalWarn (O r.checkCount) "Assertion violation" ++
      [.pop, .assert (Term.implies pc q)]) ∧
    (O r.checkCount = .satisfiable →
      Event.warn "Assertion violation happens here" ∈ traceDiff r assertFinal) ∧
    (applyEvents [[]] (traceDiff r assertFinal) = [[Term.implies pc q]]) := by
  intro q r pc requireFinal assertFinal
  have hccfst : (evalConditionWithCheck Γ O c "Condition is always $VALUE." s).1 = q := rfl
  -- require: the state after the (possible) tautology check
  have hreqRoot : ∀ hr : isRootFunction r = true, ∀ hl : c.isLiteralNode = false,
      traceDiff r requireFinal =
        [.push, .assert (Term.and pc q), .check [], .pop,
         .push, .assert (Term.and pc (Term.not q)), .check [], .pop] ++
        tautWarn (O r.checkCount) (O (r.checkCount + 1)) "Condition is always $VALUE." ++
        [.assert (Term.implies pc q)] := by
    intro hr hl
    have hcc : (evalConditionWithCheck Γ O c "Condition is always $VALUE." s).2 =
        checkBooleanNotConstant O false q "Condition is always $VALUE." r := by
      show (if isRootFunction r = true then
        checkBooleanNotConstant O c.isLiteralNode q "Condition is always $VALUE." r
        else r) = _
      rw [if_pos hr, hl]
    have hpcs : currentPathConditions
        (checkBooleanNotConstant O false q "Condition is always $VALUE." r) = pc := by
      unfold currentPathConditions
      rw [pathConditions_checkBooleanNotConstant]
      rfl
    apply traceDiff_eq
    show (addPathImpliedExpression _ q).trace = _
    rw [show ∀ t u, (addPathImpliedExpression t u).trace =
        t.trace ++ [Event.assert (Term.implies (currentPathConditions t) u)]
      from fun _ _ => rfl]
    rw [hcc, hpcs, checkBooleanNotConstant_eq]
    simp [List.append_assoc]
  have hreqNonRoot : ∀ hr : isRootFunction r = false,
      traceDiff r requireFinal = [.assert (Term.implies pc q)] := by
    intro hr
    have hcc : (evalConditionWithCheck Γ O c "Condition is always $VALUE." s).2 = r := by
      show (if isRootFunction r = true then
        checkBooleanNotConstant O c.isLiteralNode q "Condition is always $VALUE." r
        else r) = _
      rw [hr]
      simp
    apply traceDiff_eq
    show (addPathImpliedExpression _ q).trace = _
    rw [hcc]
    rfl
  have hreqRootLit : ∀ hr : isRootFunction r = true, ∀ hl : c.isLiteralNode = true,
      traceDiff r requireFinal = [.assert (Term.implies pc q)] := by
    intro hr hl
    have hcc : (evalConditionWithCheck Γ O c "Condition is always $VALUE." s).2 = r := by
      show (if isRootFunction r = true then
        checkBooleanNotConstant O c.isLiteralNode q "Condition is always $VALUE." r
        else r) = _
      rw [if_pos hr, hl]
      rfl
    apply traceDiff_eq
    show (addPathImpliedExpression _ q).trace = _
    rw [hcc]
    rfl
  -- assert: the goal check block followed by the implication
  have hasserteq : traceDiff r assertFinal =
      [.push, .assert (Term.and pc (Term.not q)),
       .check (checkConditionEvalList none r)] ++
      goalWarn (O r.checkCount) "Assertion violation" ++
      [.pop, .assert (Term.implies pc q)] := by
    have hpcs : currentPathConditions
        (checkCondition O (Term.not q) "Assertion violation" none r) = pc := by
      unfold currentPathConditions
      rw [pathConditions_checkCondition]
      rfl
    apply traceDiff_eq
    show (addPathImpliedExpression _ q).trace = _
    rw [show ∀ t u, (addPathImpliedExpression t u).trace =
        t.trace ++ [Event.assert (Term.implies (currentPathConditions t) u)]
      from fun _ _ => rfl]
    rw [hpcs, checkCondition_eq]
    simp [List.append_assoc]
  refine ⟨rfl, hreqNonRoot, hreqRoot, ?_, rfl, hasserteq, ?_, ?_⟩
  · by_cases hr : isRootFunction r = true
    · by_cases hl : c.isLiteralNode = true
      · rw [hreqRootLit hr hl]
        rfl
      · rw [hreqRoot hr (by simpa using hl)]
        rw [show ([Event.push, Event.assert (Term.and pc q), Event.check [], Event.pop,
            Event.push, Event.assert (Term.and pc (Term.not q)), Event.check [], Event.pop] ++
            tautWarn (O r.checkCount) (O (r.checkCount + 1)) "Condition is always $VALUE." ++
            [Event.assert (Term.implies pc q)]) =
          ([Event.push, Event.assert (Term.and pc q), Event.check [], Event.pop,
            Event.push, Event.assert (Term.and pc (Term.not q)), Event.check [], Event.pop] ++
            tautWarn (O r.checkCount) (O (r.checkCount + 1)) "Condition is always $VALUE.") ++
          [Event.assert (Term.implies pc q)] from by simp [List.append_assoc]]
        rw [applyEvents_append, applyEvents_tautBlock]
        rfl
    · rw [hreqNonRoot (by simpa using hr)]
      rfl
  · intro hsat
    rw [hasserteq, hsat]
    simp [goalWarn]
  · rw [hasserteq]
    rw [show ([Event.push, Event.assert (Term.and pc (Term.not q)),
        Event.check (checkConditionEvalList none r)] ++
        goalWarn (O r.checkCount) "Assertion violation" ++
        [Event.pop, Event.assert (Term.implies pc q)]) =
      ([Event.push, Event.assert (Term.and pc (Term.not q)),
        Event.check (checkConditionEvalList none r)] ++
        goalWarn (O r.checkCount) "Assertion violation" ++ [Event.pop]) ++
      [Event.assert (Term.implies pc q)] from by simp [List.append_assoc]]
    rw [applyEvents_append, applyEvents_goalBlock]
    rfl

/-- Witness for C4 at a concrete input: with a SAT oracle, the assert goal
check reports "Assertion violation happens here", and the require trace at a
non-literal root condition is exactly the tautology block followed by the
implication. -/
theorem assert_require_protocol_witness :
    (Event.warn "Assertion violation happens here" ∈
      traceDiff (evalBexp envU8 oracleSat (.gt (.var 0) (.lit 1)) st1).2
        (addPathImpliedExpression
          (checkCondition oracleSat
            (Term.not (evalBexp envU8 oracleSat (.gt (.var 0) (.lit 1)) st1).1)
            "Assertion violation" none
            (evalBexp envU8 oracleSat (.gt (.var 0) (.lit 1)) st1).2)
          (evalBexp envU8 oracleSat (.gt (.var 0) (.lit 1)) st1).1)) ∧
    applyEvents [[]]
        (traceDiff (evalBexp envU8 oracleSat (.gt (.var 0) (.lit 1)) st1).2
          (addPathImpliedExpression
            (evalConditionWithCheck envU8 oracleSat (.gt (.var 0) (.lit 1))
              "Condition is always $VALUE." st1).2
            (evalBexp envU8 oracleSat (.gt (.var 0) (.lit 1)) st1).1)) =
      [[Term.implies
          (currentPathConditions (evalBexp envU8 oracleSat (.gt (.var 0) (.lit 1)) st1).2)
          (evalBexp envU8 oracleSat (.gt (.var 0) (.lit 1)) st1).1]] :=
  ⟨(assert_require_protocol envU8 oracleSat (.gt (.var 0) (.lit 1)) st1).2.2.2.2.2.2.1
      (by decide),
   (assert_require_protocol envU8 oracleSat (.gt (.var 0) (.lit 1)) st1).2.2.2.1⟩

/-- C5 (amended): on a binary `/` over an integer common type the encoder
first runs the goal check `right == 0` under description "Division by zero"
(warning "Division by zero happens here" when satisfiable, the divisor
passed to the model under the extra name `<result>`), and then asserts the
bare term `right != 0` — not implied by the current path condition — into
the innermost open solver scope.  The assertion is assumed by every
subsequent query until the scope enclosing the division is popped: stated
here for a division at the bottom scope, it survives every continuation
whose pops all match the continuation's own pushes
(`scanScopes 0 δ = some d`).  A continuation that pops the enclosing scope
— a division inside a for-statement's push/pop scope — discards it (see the
counterexample). -/
theorem division_nonzero_assert (Γ : Var → IntTy) (O : Nat → CheckResult)
    (ty : IntTy) (a b : AExp) (s : Chk) :
    let l := evalAexp Γ O a s
    let r := evalAexp Γ O b l.2
    let pc := currentPathConditions r.2
    let s3 := checkCondition O (Term.eq r.1 (Term.intConst 0)) "Division by zero"
      (some ("<result>", r.1)) r.2
    let s4 := addAssertion s3 (Term.ne r.1 (Term.intConst 0))
    (evalAexp Γ O (.div ty a b) s =
      (division l.1 r.1 ty, checkUnderOverflow O (division l.1 r.1 ty) ty s4)) ∧
    (traceDiff r.2 s4 =
      [.push, .assert (Term.and pc (Term.eq r.1 (Term.intConst 0))),
       .check (checkConditionEvalList (some ("<result>", r.1)) r.2)] ++
      goalWarn (O r.2.checkCount) "Division by zero" ++
      [.pop, .assert (Term.ne r.1 (Term.intConst 0))]) ∧
    (O r.2.checkCount = .satisfiable →
      Event.warn "Division by zero happens here" ∈ traceDiff r.2 s4) ∧
    (r.2.functionPathLen ≠ 0 →
      ∃ rest, checkConditionEvalList (some ("<result>", r.1)) r.2 =
        ("<result>", r.1) :: rest) ∧
    (applyEvents [[]] (traceDiff r.2 s4) = [[Term.ne r.1 (Term.intConst 0)]]) ∧
    (∀ δ d, scanScopes 0 δ = some d →
      ∃ top base, applyEvents [[Term.ne r.1 (Term.intConst 0)]] δ = top ++ [base] ∧
        top.length = d ∧ Term.ne r.1 (Term.intConst 0) ∈ base) := by
  intro l r pc s3 s4
  have hdiff : traceDiff r.2 s4 =
      [.push, .assert (Term.and pc (Term.eq r.1 (Term.intConst 0))),
       .check (checkConditionEvalList (some ("<result>", r.1)) r.2)] ++
      goalWarn (O r.2.checkCount) "Division by zero" ++
      [.pop, .assert (Term.ne r.1 (Term.intConst 0))] := by
    apply traceDiff_eq
    show (addAssertion s3 _).trace = _
    rw [show ∀ t u, (addAssertion t u).trace = t.trace ++ [Event.assert u]
      from fun _ _ => rfl]
    rw [show s3 = checkCondition O (Term.eq r.1 (Term.intConst 0)) "Division by zero"
      (some ("<result>", r.1)) r.2 from rfl, checkCondition_eq]
    simp [List.append_assoc]
  refine ⟨rfl, hdiff, ?_, ?_, ?_, ?_⟩
  · intro hsat
    rw [hdiff, hsat]
    simp [goalWarn]
  · intro hfn
    refine ⟨r.2.vars.map (fun p => (varName p.1, Term.var p.1 p.2.cur)), ?_⟩
    unfold checkConditionEvalList
    rw [if_pos hfn]
    rfl
  · rw [hdiff]
    rw [show ([Event.push,
        Event.assert (Term.and pc (Term.eq r.1 (Term.intConst 0))),
        Event.check (checkConditionEvalList (some ("<result>", r.1)) r.2)] ++
        goalWarn (O r.2.checkCount) "Division by zero" ++
        [Event.pop, Event.assert (Term.ne r.1 (Term.intConst 0))]) =
      ([Event.push,
        Event.assert (Term.and pc (Term.eq r.1 (Term.intConst 0))),
        Event.check (checkConditionEvalList (some ("<result>", r.1)) r.2)] ++
        goalWarn (O r.2.checkCount) "Division by zero" ++ [Event.pop]) ++
      [Event.assert (Term.ne r.1 (Term.intConst 0))] from by simp [List.append_assoc]]
    rw [applyEvents_append, applyEvents_goalBlock]
    rfl
  · intro δ d hs
    obtain ⟨top', base', h1, h2, h3⟩ :=
      applyEvents_base_persist δ 0 d [] [Term.ne r.1 (Term.intConst 0)] rfl hs
    exact ⟨top', base', h1, h2, h3 _ (List.mem_singleton_self _)⟩

/-- Witness for C5 at a concrete input: a SAT oracle makes the division
encoder warn "Division by zero happens here", and the bare nonzero
assertion survives a later balanced push/check/pop scope. -/
theorem division_nonzero_assert_witness :
    (Event.warn "Division by zero happens here" ∈
      traceDiff st1 (addAssertion
        (checkCondition oracleSat (Term.eq (currentValue st1 0) (Term.intConst 0))
          "Division by zero" (some ("<result>", currentValue st1 0)) st1)
        (Term.ne (currentValue st1 0) (Term.intConst 0)))) ∧
    (∃ top base,
      applyEvents [[Term.ne (currentValue st1 0) (Term.intConst 0)]]
          [Event.push, Event.check [], Event.pop] = top ++ [base] ∧
      top.length = 0 ∧
      Term.ne (currentValue st1 0) (Term.intConst 0) ∈ base) :=
  ⟨(division_nonzero_assert envU8 oracleSat tyU8 (.var 0) (.var 0) st1).2.2.1 (by decide),
   (division_nonzero_assert envU8 oracleSat tyU8 (.var 0) (.var 0) st1).2.2.2.2.2
     [Event.push, Event.check [], Event.pop] 0 (by decide)⟩

/-- C5 counterexample: for a division inside a for-statement's body the bare
`right != 0` assertion is made inside the solver scope the for-statement
pushes around its body, and the pop at the end of that scope discards it —
replaying the whole trace leaves no frame containing the assertion, so
queries after the loop do not assume the divisor is nonzero, refuting
"every subsequent solver query on every path assumes the divisor is
nonzero". -/
theorem division_nonzero_scope_discard_cex :
    (visitStmt envU8 oracleUnsat
      (.forS .skip none .skip
        (.assertS (.ge (.div tyU8 (.var 0) (.var 0)) (.lit 0)))) st1).isSome = true ∧
    Event.assert (Term.ne (Term.var 0 0) (Term.intConst 0)) ∈
      ((visitStmt envU8 oracleUnsat
        (.forS .skip none .skip
          (.assertS (.ge (.div tyU8 (.var 0) (.var 0)) (.lit 0)))) st1).getD
            chkDefault).trace ∧
    (∀ f ∈ applyEvents [[]]
        ((visitStmt envU8 oracleUnsat
          (.forS .skip none .skip
            (.assertS (.ge (.div tyU8 (.var 0) (.var 0)) (.lit 0)))) st1).getD
              chkDefault).trace,
      Term.ne (Term.var 0 0) (Term.intConst 0) ∉ f) := by
  decide

/-- C7: every solver push of the goal machinery is paired with exactly one
pop on every exit path — `checkCondition`'s appended block is one push, the
conjoined assertion, the check, the per-result warning (the same trace shape
for all five results) and one pop; `checkBooleanNotConstant` on a
non-literal condition appends two successive balanced push/pop scopes; and
globally every successful statement visit appends a trace that is
push/pop-balanced with every `check` under an open push, so the solver scope
depth after the visit equals the depth before it. -/
theorem solver_scope_balance (Γ : Var → IntTy) (O : Nat → CheckResult) :
    (∀ (cond : Term) (desc : String) (add : Option (String × Term)) (s : Chk),
      traceDiff s (checkCondition O cond desc add s) =
        [.push, .assert (Term.and (currentPathConditions s) cond),
         .check (checkConditionEvalList add s)] ++
        goalWarn (O s.checkCount) desc ++ [.pop] ∧
      (traceDiff s (checkCondition O cond desc add s)).count Event.push = 1 ∧
      (traceDiff s (checkCondition O cond desc add s)).count Event.pop = 1 ∧
      scanScopes 0 (traceDiff s (checkCondition O cond desc add s)) = some 0) ∧
    (∀ (cond : Term) (desc : String) (s : Chk),
      traceDiff s (checkBooleanNotConstant O false cond desc s) =
        [.push, .assert (Term.and (currentPathConditions s) cond), .check [], .pop,
         .push, .assert (Term.and (currentPathConditions s) (Term.not cond)),
         .check [], .pop] ++
        tautWarn (O s.checkCount) (O (s.checkCount + 1)) desc ∧
      (traceDiff s (checkBooleanNotConstant O false cond desc s)).count Event.push = 2 ∧
      (traceDiff s (checkBooleanNotConstant O false cond desc s)).count Event.pop = 2 ∧
      scanScopes 0 (traceDiff s (checkBooleanNotConstant O false cond desc s)) = some 0) ∧
    (∀ (stmt : Stmt) (s s' : Chk), visitStmt Γ O stmt s = some s' →
      s'.trace = s.trace ++ traceDiff s s' ∧
      scanScopes 0 (traceDiff s s') = some 0) := by
  refine ⟨?_, ?_, ?_⟩
  · intro cond desc add s
    have hd : traceDiff s (checkCondition O cond desc add s) =
        [.push, .assert (Term.and (currentPathConditions s) cond),
         .check (checkConditionEvalList add s)] ++
        goalWarn (O s.checkCount) desc ++ [.pop] := by
      apply traceDiff_eq
      rw [checkCondition_eq]
    refine ⟨hd, ?_, ?_, ?_⟩
    · rw [hd]
      cases O s.checkCount <;>
        simp [goalWarn, List.count_append, List.count_cons, List.count_nil]
    · rw [hd]
      cases O s.checkCount <;>
        simp [goalWarn, List.count_append, List.count_cons, List.count_nil]
    · rw [hd]
      exact scanScopes_goalBlock _ _ _ _
  · intro cond desc s
    have hd : traceDiff s (checkBooleanNotConstant O false cond desc s) =
        [.push, .assert (Term.and (currentPathConditions s) cond), .check [], .pop,
         .push, .assert (Term.and (currentPathConditions s) (Term.not cond)),
         .check [], .pop] ++
        tautWarn (O s.checkCount) (O (s.checkCount + 1)) desc := by
      apply traceDiff_eq
      rw [checkBooleanNotConstant_eq]
    refine ⟨hd, ?_, ?_, ?_⟩
    · rw [hd]
      unfold tautWarn
      split_ifs <;>
        simp [List.count_append, List.count_cons, List.count_nil]
    · rw [hd]
      unfold tautWarn
      split_ifs <;>
        simp [List.count_append, List.count_cons, List.count_nil]
    · rw [hd]
      exact scanScopes_tautBlock _ _ _ _ _
  · intro stmt s s' h
    obtain ⟨_, _, δ, hδ, hs⟩ := (visitStmt_ok Γ O stmt s s' h).1
    have hde : traceDiff s s' = δ := traceDiff_eq δ hδ
    rw [hde]
    exact ⟨hδ, hs⟩

/-- Witness for C7 at a concrete input: the trace a concrete `assert`
statement appends to a concrete state is balanced with depth 0 at both
ends. -/
theorem solver_scope_balance_witness :
    ((visitStmt envU8 oracleUnsat (.assertS (.gt (.var 0) (.lit 1))) st1).getD
        chkDefault).trace =
      st1.trace ++ traceDiff st1
        ((visitStmt envU8 oracleUnsat (.assertS (.gt (.var 0) (.lit 1))) st1).getD
          chkDefault) ∧
    scanScopes 0 (traceDiff st1
      ((visitStmt envU8 oracleUnsat (.assertS (.gt (.var 0) (.lit 1))) st1).getD
        chkDefault)) = some 0 :=
  (solver_scope_balance envU8 oracleUnsat).2.2 (.assertS (.gt (.var 0) (.lit 1))) st1
    ((visitStmt envU8 oracleUnsat (.assertS (.gt (.var 0) (.lit 1))) st1).getD chkDefault)
    (by decide)

/-- C10: `mergeVariables` succeeds exactly when every declaration in the
deduplicated touched list is present in both index snapshots with two
*different* snapshot indices; a violation is a process abort (`none`,
modelling the failed internal `solAssert`) and not a warning — on success
the appended events are assertions only, never a `warn`.  In particular a
touched variable whose two snapshots agree (its index was bumped in neither
merged branch) makes the whole merge abort. -/
theorem merge_variables_internal_assert (touched : List Var) (condition : Term)
    (iT iF : VariableIndices) (s : Chk) :
    ((mergeVariables touched condition iT iF s).isSome = true ↔
      ∀ v ∈ dedupSort touched, ∃ ti fi, iT.lookup v = some ti ∧
        iF.lookup v = some fi ∧ ti ≠ fi) ∧
    (∀ s', mergeVariables touched condition iT iF s = some s' →
      ∃ δ, s'.trace = s.trace ++ δ ∧ ∀ ev ∈ δ, ∃ t, ev = Event.assert t) ∧
    (∀ v ∈ touched, ∀ i, iT.lookup v = some i → iF.lookup v = some i →
      mergeVariables touched condition iT iF s = none) := by
  refine ⟨mergeVariablesFrom_isSome condition iT iF (dedupSort touched) s, ?_, ?_⟩
  · intro s' h
    exact ((mergeVariablesFrom_ok condition iT iF (dedupSort touched) s s' h).2.2).1
  · intro v hv i hti hfi
    cases h : mergeVariables touched condition iT iF s with
    | none => rfl
    | some s' =>
        exfalso
        have hsome : (mergeVariables touched condition iT iF s).isSome = true := by
          rw [h]
          rfl
        obtain ⟨ti, fi, hti2, hfi2, hne⟩ :=
          (mergeVariablesFrom_isSome condition iT iF (dedupSort touched) s).1 hsome v
            ((mem_dedupSort v touched).2 hv)
        rw [hti] at hti2
        rw [hfi] at hfi2
        cases hti2
        cases hfi2
        exact hne rfl

/-- Witness for C10 at concrete snapshots: merging variable `0` with
snapshot indices 2 and 0 succeeds and appends only assertions, while equal
snapshot indices 1 and 1 abort the merge. -/
theorem merge_variables_internal_assert_witness :
    ((mergeVariables [0] (Term.boolConst true) [(0, 2)] [(0, 0)] st1).isSome = true) ∧
    (∃ δ, ((mergeVariables [0] (Term.boolConst true) [(0, 2)] [(0, 0)] st1).getD
        chkDefault).trace = st1.trace ++ δ ∧ ∀ ev ∈ δ, ∃ t, ev = Event.assert t) ∧
    (mergeVariables [0] (Term.boolConst true) [(0, 1)] [(0, 1)] st1 = none) :=
  ⟨(merge_variables_internal_assert [0] (Term.boolConst true) [(0, 2)] [(0, 0)] st1).1.2
      (by
        intro v hv
        have hv0 : v = 0 := by simpa [dedupSort, insertSorted] using hv
        subst hv0
        exact ⟨2, 0, rfl, rfl, by decide⟩),
   (merge_variables_internal_assert [0] (Term.boolConst true) [(0, 2)] [(0, 0)] st1).2.1
      ((mergeVariables [0] (Term.boolConst true) [(0, 2)] [(0, 0)] st1).getD chkDefault)
      (by decide),
   (merge_variables_internal_assert [0] (Term.boolConst true) [(0, 1)] [(0, 1)] st1).2.2
      0 (by decide) 1 (by decide) (by decide)⟩

/-- C1: a successful visit of an if-statement decomposes as: encode the
condition (with the root tautology check), visit the true branch under the
pushed condition, visit the else branch (if any) under the pushed negated
condition, and end on the merge — nothing follows the merge, so the
children are not descended again.  For every declaration in the
concatenation of the two branches' touched sets the merge reads an index
`iT` from the end-of-true-branch snapshot and `iF` from the
end-of-false-branch snapshot (the pre-branch current index when there is no
else branch), asserts `v_new == ite(c, v_iT, v_iF)`, and the new index is
strictly greater than both. -/
theorem if_branch_merge (Γ : Var → IntTy) (O : Nat → CheckResult) (c : BExp)
    (t : Stmt) (e? : Option Stmt) (s s' : Chk) (hOK : VarsOK s)
    (h : visitStmt Γ O (.ifS c t e?) s = some s') :
    let cc := evalConditionWithCheck Γ O c "Condition is always $VALUE." s
    (∀ e, e? = some e →
      ∃ sOutT sOutF,
        visitStmt Γ O t (pushPathCondition cc.2 cc.1) = some sOutT ∧
        visitStmt Γ O e (pushPathCondition
          (resetVariableIndices (popPathCondition sOutT) (copyVariableIndices cc.2))
          (Term.not cc.1)) = some sOutF ∧
        mergeVariables (touchedStmt t ++ touchedStmt e) cc.1
          (copyVariableIndices (popPathCondition sOutT))
          (copyVariableIndices (popPathCondition sOutF))
          (resetVariableIndices (popPathCondition sOutF)
            (copyVariableIndices (resetVariableIndices (popPathCondition sOutT)
              (copyVariableIndices cc.2)))) = some s' ∧
        (∀ v ∈ touchedStmt t ++ touchedStmt e,
          ∃ ti fi ni,
            (copyVariableIndices (popPathCondition sOutT)).lookup v = some ti ∧
            (copyVariableIndices (popPathCondition sOutF)).lookup v = some fi ∧
            ti < ni ∧ fi < ni ∧
            Event.assert (Term.eq (Term.var v ni)
              (Term.ite cc.1 (Term.var v ti) (Term.var v fi))) ∈ s'.trace)) ∧
    (e? = none →
      ∃ sOutT,
        visitStmt Γ O t (pushPathCondition cc.2 cc.1) = some sOutT ∧
        mergeVariables (touchedStmt t) cc.1
          (copyVariableIndices (popPathCondition sOutT))
          (copyVariableIndices (resetVariableIndices (popPathCondition sOutT)
            (copyVariableIndices cc.2)))
          (resetVariableIndices (popPathCondition sOutT)
            (copyVariableIndices cc.2)) = some s' ∧
        (∀ v ∈ touchedStmt t,
          ∃ ti fi ni,
            (copyVariableIndices (popPathCondition sOutT)).lookup v = some ti ∧
            (copyVariableIndices (resetVariableIndices (popPathCondition sOutT)
              (copyVariableIndices cc.2))).lookup v = some fi ∧
            fi = curOf cc.2 v ∧
            ti < ni ∧ fi < ni ∧
            Event.assert (Term.eq (Term.var v ni)
              (Term.ite cc.1 (Term.var v ti) (Term.var v fi))) ∈ s'.trace)) := by
  intro cc
  cases e? with
  | some e =>
      refine ⟨?_, fun he => Option.noConfusion he⟩
      intro e0 he
      injection he with he
      subst he
      simp only [visitStmt] at h
      split at h
      · simp at h
      · next sOutT hT =>
          split at h
          · simp at h
          · next sOutF hF =>
              refine ⟨sOutT, sOutF, hT, hF, h, ?_⟩
              intro v hv
              -- facts about the run up to the merge
              have K0 := (evalConditionWithCheck_ok Γ O c "Condition is always $VALUE." s).2 hOK
              have FT := (visitStmt_ok Γ O t _ _ hT).1
              have KT := (visitStmt_ok Γ O t _ _ hT).2 (varsOK_of_vars_eq rfl K0)
              have K1 : VarsOK (popPathCondition sOutT) := varsOK_of_vars_eq rfl KT
              have K2 := varsOK_reset K1 (snapLE_mono (snapLE_copy K0)
                (stepFacts_trans (stepFacts_pushPath _ _)
                  (stepFacts_trans FT (stepFacts_popPath _))).2.1)
              have FF := (visitStmt_ok Γ O e _ _ hF).1
              have KF := (visitStmt_ok Γ O e _ _ hF).2 (varsOK_of_vars_eq rfl K2)
              have K3 : VarsOK (popPathCondition sOutF) := varsOK_of_vars_eq rfl KF
              -- snapshot indices are below the merging state's next counters
              have FtoM : StepFacts (popPathCondition sOutT)
                  (resetVariableIndices (popPathCondition sOutF)
                    (copyVariableIndices (resetVariableIndices (popPathCondition sOutT)
                      (copyVariableIndices cc.2)))) :=
                stepFacts_trans (stepFacts_reset _ _)
                  (stepFacts_trans (stepFacts_pushPath _ _)
                    (stepFacts_trans FF (stepFacts_trans (stepFacts_popPath _)
                      (stepFacts_reset _ _))))
              have FtoM2 : StepFacts (popPathCondition sOutF)
                  (resetVariableIndices (popPathCondition sOutF)
                    (copyVariableIndices (resetVariableIndices (popPathCondition sOutT)
                      (copyVariableIndices cc.2)))) :=
                stepFacts_reset _ _
              obtain ⟨Fm, Km, hasrt, hM⟩ := mergeVariablesFrom_ok _ _ _ _ _ _ h
              obtain ⟨ti, fi, hti, hfi, hne, ni, hni, hmem⟩ :=
                hM v ((mem_dedupSort v _).2 hv)
              refine ⟨ti, fi, ni, hti, hfi, ?_, ?_, hmem⟩
              · have h1 : ti < nextOf (popPathCondition sOutT) v :=
                  snapLE_copy K1 (v, ti) (lookup_mem hti)
                exact Nat.lt_of_lt_of_le h1 (Nat.le_trans (FtoM.2.1 v) hni)
              · have h1 : fi < nextOf (popPathCondition sOutF) v :=
                  snapLE_copy K3 (v, fi) (lookup_mem hfi)
                exact Nat.lt_of_lt_of_le h1 (Nat.le_trans (FtoM2.2.1 v) hni)
  | none =>
      refine ⟨fun e0 he => Option.noConfusion he, ?_⟩
      intro _
      simp only [visitStmt] at h
      split at h
      · simp at h
      · next sOutT hT =>
          refine ⟨sOutT, hT, h, ?_⟩
          intro v hv
          have K0 := (evalConditionWithCheck_ok Γ O c "Condition is always $VALUE." s).2 hOK
          have FT := (visitStmt_ok Γ O t _ _ hT).1
          have KT := (visitStmt_ok Γ O t _ _ hT).2 (varsOK_of_vars_eq rfl K0)
          have K1 : VarsOK (popPathCondition sOutT) := varsOK_of_vars_eq rfl KT
          have K2 := varsOK_reset K1 (snapLE_mono (snapLE_copy K0)
            (stepFacts_trans (stepFacts_pushPath _ _)
              (stepFacts_trans FT (stepFacts_popPath _))).2.1)
          have Fpop : StepFacts cc.2 (popPathCondition sOutT) :=
            stepFacts_trans (stepFacts_pushPath _ _)
              (stepFacts_trans FT (stepFacts_popPath _))
          obtain ⟨Fm, Km, hasrt, hM⟩ := mergeVariablesFrom_ok _ _ _ _ _ _ h
          obtain ⟨ti, fi, hti, hfi, hne, ni, hni, hmem⟩ :=
            hM v ((mem_dedupSort v _).2 hv)
          refine ⟨ti, fi, ni, hti, hfi, ?_, ?_, ?_, hmem⟩
          · -- the false-side snapshot holds the pre-branch current index
            rw [lookup_copy, lookup_reset] at hfi
            cases hX : (popPathCondition sOutT).vars.lookup v with
            | none => rw [hX] at hfi; simp at hfi
            | some old =>
                rw [hX] at hfi
                cases hY : cc.2.vars.lookup v with
                | none =>
                    exfalso
                    have hv1 : v ∈ keysOf (popPathCondition sOutT) :=
                      (lookup_isSome_iff _ v).1 (by rw [hX]; rfl)
                    rw [Fpop.1] at hv1
                    have hv2 := (known_iff_mem_keys cc.2 v).2 hv1
                    rw [knownVariable, hY] at hv2
                    cases hv2
                | some q =>
                    have hind : (copyVariableIndices cc.2).lookup v = some q.cur := by
                      rw [lookup_copy, hY]
                      rfl
                    rw [hind] at hfi
                    simp at hfi
                    rw [← hfi]
                    simp [curOf, Chk.getVar, hY]
          · have h1 : ti < nextOf (popPathCondition sOutT) v :=
              snapLE_copy K1 (v, ti) (lookup_mem hti)
            exact Nat.lt_of_lt_of_le h1
              (Nat.le_trans ((stepFacts_reset (popPathCondition sOutT) _).2.1 v) hni)
          · have h1 : fi < nextOf (resetVariableIndices (popPathCondition sOutT)
                (copyVariableIndices cc.2)) v :=
              snapLE_copy K2 (v, fi) (lookup_mem hfi)
            exact Nat.lt_of_lt_of_le h1 hni

/-- Witness for C1 at a concrete input: an if-statement with no else branch
on a concrete state, whose merge reads the pre-branch index on the false
side and asserts the ite-merge at a strictly larger fresh index. -/
theorem if_branch_merge_witness :
    (let cc := evalConditionWithCheck envU8 oracleUnsat (.gt (.var 0) (.lit 1))
      "Condition is always $VALUE." st1
    ∃ sOutT,
      visitStmt envU8 oracleUnsat (.assign 0 (.lit 2))
        (pushPathCondition cc.2 cc.1) = some sOutT ∧
      mergeVariables (touchedStmt (.assign 0 (.lit 2))) cc.1
        (copyVariableIndices (popPathCondition sOutT))
        (copyVariableIndices (resetVariableIndices (popPathCondition sOutT)
          (copyVariableIndices cc.2)))
        (resetVariableIndices (popPathCondition sOutT)
          (copyVariableIndices cc.2)) =
        some ((visitStmt envU8 oracleUnsat
          (.ifS (.gt (.var 0) (.lit 1)) (.assign 0 (.lit 2)) none) st1).getD
            chkDefault) ∧
      (∀ v ∈ touchedStmt (.assign 0 (.lit 2)),
        ∃ ti fi ni,
          (copyVariableIndices (popPathCondition sOutT)).lookup v = some ti ∧
          (copyVariableIndices (resetVariableIndices (popPathCondition sOutT)
            (copyVariableIndices cc.2))).lookup v = some fi ∧
          fi = curOf cc.2 v ∧
          ti < ni ∧ fi < ni ∧
          Event.assert (Term.eq (Term.var v ni)
            (Term.ite cc.1 (Term.var v ti) (Term.var v fi))) ∈
            ((visitStmt envU8 oracleUnsat
              (.ifS (.gt (.var 0) (.lit 1)) (.assign 0 (.lit 2)) none) st1).getD
                chkDefault).trace)) :=
  (if_branch_merge envU8 oracleUnsat (.gt (.var 0) (.lit 1)) (.assign 0 (.lit 2)) none
    st1 ((visitStmt envU8 oracleUnsat
      (.ifS (.gt (.var 0) (.lit 1)) (.assign 0 (.lit 2)) none) st1).getD chkDefault)
    ⟨by decide, by decide⟩ (by decide)).2 rfl

/-- C8 counterexample: for the do-while loop `do { x := x + 1 } while (x > 0)`
on a state where `x` enters at SSA index 0, the havoc bumps `x` to index 1
and the body exits at index 2, yet the merge assertion reads the loop
condition at the reset (before-body) index 1 — the condition was NOT
evaluated in the body-exit state, and the post snapshot (true arm
`x_2`) was taken before the condition evaluation, contrary to the claim
that post is snapshotted only after the condition is evaluated in the
body-exit state. -/
theorem dowhile_condition_state_cex :
    (visitStmt envU8 oracleUnsat
      (.whileS true (.gt (.var 0) (.lit 0))
        (.assign 0 (.add tyU8 (.var 0) (.lit 1)))) st1).isSome = true ∧
    Event.assert (Term.eq (Term.var 0 3)
      (Term.ite (Term.gt (Term.var 0 1) (Term.intConst 0))
        (Term.var 0 2) (Term.var 0 0))) ∈
      ((visitStmt envU8 oracleUnsat
        (.whileS true (.gt (.var 0) (.lit 0))
          (.assign 0 (.add tyU8 (.var 0) (.lit 1)))) st1).getD chkDefault).trace ∧
    Event.assert (Term.eq (Term.var 0 3)
      (Term.ite (Term.gt (Term.var 0 2) (Term.intConst 0))
        (Term.var 0 2) (Term.var 0 0))) ∉
      ((visitStmt envU8 oracleUnsat
        (.whileS true (.gt (.var 0) (.lit 0))
          (.assign 0 (.add tyU8 (.var 0) (.lit 1)))) st1).getD chkDefault).trace := by
  decide

/-- C8 (amended): for a do-while loop the body is visited exactly once with
no pushed path condition, the post snapshot is taken at body exit BEFORE the
condition is evaluated (condition side effects are excluded from it), the
condition is then evaluated in the state whose indices were reset to the
before-body havoc snapshot — not in the body-exit state — the indices are
reset to the pre-loop snapshot, and the merge runs on the body-exit and
pre-loop snapshots under the already-encoded condition term without
re-evaluating the condition; the loop-execution flag is set afterwards, and
each merged variable gets a fresh index above both snapshot indices. -/
theorem dowhile_snapshot_order (Γ : Var → IntTy) (O : Nat → CheckResult) (c : BExp)
    (body : Stmt) (s s' : Chk) (hOK : VarsOK s)
    (h : visitStmt Γ O (.whileS true c body) s = some s') :
    let touched := touchedStmt (.whileS true c body)
    let s1 := resetVariables Γ s touched
    ∃ sOut,
      visitStmt Γ O body s1 = some sOut ∧
      (let cc := evalConditionWithCheck Γ O c
        "Do-while loop condition is always $VALUE."
        (resetVariableIndices sOut (copyVariableIndices s1))
      ∃ s5,
        mergeVariables touched cc.1 (copyVariableIndices sOut)
          (copyVariableIndices (resetVariableIndices cc.2 (copyVariableIndices s)))
          (resetVariableIndices cc.2 (copyVariableIndices s)) = some s5 ∧
        s' = { s5 with loopExecutionHappened := true } ∧
        s'.loopExecutionHappened = true ∧
        (∀ v ∈ touched,
          ∃ ti fi ni,
            (copyVariableIndices sOut).lookup v = some ti ∧
            (copyVariableIndices (resetVariableIndices cc.2
              (copyVariableIndices s))).lookup v = some fi ∧
            ti < ni ∧ fi < ni ∧
            Event.assert (Term.eq (Term.var v ni)
              (Term.ite cc.1 (Term.var v ti) (Term.var v fi))) ∈ s'.trace)) := by
  intro touched s1
  simp only [visitStmt, eq_self_iff_true, if_true] at h
  split at h
  · simp at h
  · next sOut hB =>
      split at h
      · simp at h
      · next s5 hM =>
          refine ⟨sOut, hB, s5, hM, ?_, ?_, ?_⟩
          · injection h with h
            exact h.symm
          · injection h with h
            rw [← h]
          · intro v hv
            have hs' : s' = { s5 with loopExecutionHappened := true } := by
              injection h with h
              exact h.symm
            have Fhav := (resetVariables_ok Γ touched s).1
            have Khav := (resetVariables_ok Γ touched s).2 hOK
            have FB := (visitStmt_ok Γ O body _ _ hB).1
            have KB := (visitStmt_ok Γ O body _ _ hB).2 Khav
            have K2 : VarsOK (resetVariableIndices sOut (copyVariableIndices s1)) :=
              varsOK_reset KB (snapLE_mono (snapLE_copy Khav) FB.2.1)
            have Fcc := (evalConditionWithCheck_ok Γ O c
              "Do-while loop condition is always $VALUE."
              (resetVariableIndices sOut (copyVariableIndices s1))).1
            have Kcc := (evalConditionWithCheck_ok Γ O c
              "Do-while loop condition is always $VALUE."
              (resetVariableIndices sOut (copyVariableIndices s1))).2 K2
            have Fs : StepFacts s (evalConditionWithCheck Γ O c
                "Do-while loop condition is always $VALUE."
                (resetVariableIndices sOut (copyVariableIndices s1))).2 :=
              stepFacts_trans Fhav (stepFacts_trans FB
                (stepFacts_trans (stepFacts_reset _ _) Fcc))
            have K4 : VarsOK (resetVariableIndices (evalConditionWithCheck Γ O c
                "Do-while loop condition is always $VALUE."
                (resetVariableIndices sOut (copyVariableIndices s1))).2
                (copyVariableIndices s)) :=
              varsOK_reset Kcc (snapLE_mono (snapLE_copy hOK) Fs.2.1)
            have FOutM : StepFacts sOut (resetVariableIndices (evalConditionWithCheck Γ O c
                "Do-while loop condition is always $VALUE."
                (resetVariableIndices sOut (copyVariableIndices s1))).2
                (copyVariableIndices s)) :=
              stepFacts_trans (stepFacts_reset _ _)
                (stepFacts_trans Fcc (stepFacts_reset _ _))
            obtain ⟨Fm, Km, hasrt, hMall⟩ := mergeVariablesFrom_ok _ _ _ _ _ _ hM
            obtain ⟨ti, fi, hti, hfi, hne, ni, hni, hmem⟩ :=
              hMall v ((mem_dedupSort v _).2 hv)
            refine ⟨ti, fi, ni, hti, hfi, ?_, ?_, ?_⟩
            · have h1 : ti < nextOf sOut v := snapLE_copy KB (v, ti) (lookup_mem hti)
              exact Nat.lt_of_lt_of_le h1 (Nat.le_trans (FOutM.2.1 v) hni)
            · have h1 : fi < nextOf (resetVariableIndices (evalConditionWithCheck Γ O c
                  "Do-while loop condition is always $VALUE."
                  (resetVariableIndices sOut (copyVariableIndices s1))).2
                  (copyVariableIndices s)) v :=
                snapLE_copy K4 (v, fi) (lookup_mem hfi)
              exact Nat.lt_of_lt_of_le h1 hni
            · rw [hs']
              exact hmem

/-- Witness for the amended C8 at a concrete input: the do-while
`do { x := x + 1 } while (x > 0)` on a concrete state decomposes exactly as
stated, with the merge reading the body-exit snapshot on the true side. -/
theorem dowhile_snapshot_order_witness :
    (let touched := touchedStmt (.whileS true (.gt (.var 0) (.lit 0))
      (.assign 0 (.add tyU8 (.var 0) (.lit 1))))
    let s1 := resetVariables envU8 st1 touched
    ∃ sOut,
      visitStmt envU8 oracleUnsat (.assign 0 (.add tyU8 (.var 0) (.lit 1))) s1 =
        some sOut ∧
      (let cc := evalConditionWithCheck envU8 oracleUnsat (.gt (.var 0) (.lit 0))
        "Do-while loop condition is always $VALUE."
        (resetVariableIndices sOut (copyVariableIndices s1))
      ∃ s5,
        mergeVariables touched cc.1 (copyVariableIndices sOut)
          (copyVariableIndices (resetVariableIndices cc.2 (copyVariableIndices st1)))
          (resetVariableIndices cc.2 (copyVariableIndices st1)) = some s5 ∧
        ((visitStmt envU8 oracleUnsat (.whileS true (.gt (.var 0) (.lit 0))
          (.assign 0 (.add tyU8 (.var 0) (.lit 1)))) st1).getD chkDefault) =
          { s5 with loopExecutionHappened := true } ∧
        ((visitStmt envU8 oracleUnsat (.whileS true (.gt (.var 0) (.lit 0))
          (.assign 0 (.add tyU8 (.var 0) (.lit 1)))) st1).getD
            chkDefault).loopExecutionHappened = true ∧
        (∀ v ∈ touched,
          ∃ ti fi ni,
            (copyVariableIndices sOut).lookup v = some ti ∧
            (copyVariableIndices (resetVariableIndices cc.2
              (copyVariableIndices st1))).lookup v = some fi ∧
            ti < ni ∧ fi < ni ∧
            Event.assert (Term.eq (Term.var v ni)
              (Term.ite cc.1 (Term.var v ti) (Term.var v fi))) ∈
              ((visitStmt envU8 oracleUnsat (.whileS true (.gt (.var 0) (.lit 0))
                (.assign 0 (.add tyU8 (.var 0) (.lit 1)))) st1).getD
                  chkDefault).trace))) :=
  dowhile_snapshot_order envU8 oracleUnsat (.gt (.var 0) (.lit 0))
    (.assign 0 (.add tyU8 (.var 0) (.lit 1))) st1
    ((visitStmt envU8 oracleUnsat (.whileS true (.gt (.var 0) (.lit 0))
      (.assign 0 (.add tyU8 (.var 0) (.lit 1)))) st1).getD chkDefault)
    ⟨by decide, by decide⟩ (by decide)

theorem nextOf_le_of_vars_eq {s t : Chk} (hv : t.vars = s.vars) (v : Var) :
    nextOf s v ≤ nextOf t v := by
  simp [nextOf, Chk.getVar, hv]

/-- C2 counterexample: for `while ((++x) > 0) { }` on a state where `x`
enters at SSA index 0 (the pre snapshot), the condition is re-evaluated
after the indices are reset to pre, so its `++` bumps `x` to a fresh index 3
and the merge's false arm reads `x_3` — the claimed assertion with false arm
`x_pre = x_0` is never emitted. -/
theorem while_condition_reeval_cex :
    curOf st1 0 = 0 ∧
    (visitStmt envU8 oracleUnsat
      (.whileS false (.gt (.inc 0) (.lit 0)) .skip) st1).isSome = true ∧
    Event.assert (Term.eq (Term.var 0 4)
      (Term.ite (Term.gt (Term.add (Term.var 0 0) (Term.intConst 1)) (Term.intConst 0))
        (Term.var 0 2) (Term.var 0 3))) ∈
      ((visitStmt envU8 oracleUnsat
        (.whileS false (.gt (.inc 0) (.lit 0)) .skip) st1).getD chkDefault).trace ∧
    Event.assert (Term.eq (Term.var 0 4)
      (Term.ite (Term.gt (Term.add (Term.var 0 0) (Term.intConst 1)) (Term.intConst 0))
        (Term.var 0 2) (Term.var 0 0))) ∉
      ((visitStmt envU8 oracleUnsat
        (.whileS false (.gt (.inc 0) (.lit 0)) .skip) st1).getD chkDefault).trace := by
  decide

/-- C2 (amended): a while loop snapshots the indices as pre, havocs every
variable in its touched set to a fresh index, encodes the condition (with
the root tautology check), visits the body exactly once under the pushed
condition, snapshots the body-exit indices, resets the indices to pre, and
then RE-EVALUATES the condition: the merge runs under the re-evaluated
condition term, its false-side snapshot is taken only after that
re-evaluation — so a side-effecting condition makes the false arm read the
re-evaluation's fresh index, and only for a side-effect-free condition is
the false side the pre-loop current index — and each merged variable gets a
fresh index above both snapshot indices; afterwards the loop-execution flag
is set.  A for loop behaves the same with its init statement visited exactly
once unconditionally beforehand, its touched set drawn from the body, the
condition and the iteration expression but not the init statement, body and
iteration expression visited once inside a push/pop scope with the condition
asserted when present, and the merge condition `true` when the loop has no
condition. -/
theorem loop_merge_snapshots (Γ : Var → IntTy) (O : Nat → CheckResult) :
    (∀ (c : BExp) (body : Stmt) (s s' : Chk), VarsOK s →
      visitStmt Γ O (.whileS false c body) s = some s' →
      let touched := touchedStmt (.whileS false c body)
      let s1 := resetVariables Γ s touched
      let cc := evalConditionWithCheck Γ O c "While loop condition is always $VALUE." s1
      ∃ sOut,
        visitStmt Γ O body (pushPathCondition cc.2 cc.1) = some sOut ∧
        (let s4 := resetVariableIndices
            (resetVariableIndices (popPathCondition sOut) (copyVariableIndices cc.2))
            (copyVariableIndices s)
         let rc2 := evalBexp Γ O c s4
         ∃ s5,
           mergeVariables touched rc2.1 (copyVariableIndices (popPathCondition sOut))
             (copyVariableIndices rc2.2) rc2.2 = some s5 ∧
           s' = { s5 with loopExecutionHappened := true } ∧
           (∀ v ∈ touched, knownVariable s v = true → nextOf s v ≤ curOf s1 v) ∧
           (∀ v ∈ touched,
             ∃ ti fi ni,
               (copyVariableIndices (popPathCondition sOut)).lookup v = some ti ∧
               (copyVariableIndices rc2.2).lookup v = some fi ∧
               ti < ni ∧ fi < ni ∧
               Event.assert (Term.eq (Term.var v ni)
                 (Term.ite rc2.1 (Term.var v ti) (Term.var v fi))) ∈ s'.trace) ∧
           (noIncB c = true → ∀ v, knownVariable s v = true →
             (copyVariableIndices rc2.2).lookup v = some (curOf s v)))) ∧
    (∀ (init : Stmt) (c? : Option BExp) (iter body : Stmt) (s s' : Chk), VarsOK s →
      visitStmt Γ O (.forS init c? iter body) s = some s' →
      ∃ s0,
        visitStmt Γ O init s = some s0 ∧
        (let touched := dedupSort (touchedStmt body ++
            (match c? with
             | some c => touchedB c
             | none => []) ++ touchedStmt iter)
         let s1 := resetVariables Γ s0 touched
         let rc : Option Term × Chk :=
           match c? with
           | some c =>
               (some (evalConditionWithCheck Γ O c
                  "For loop condition is always $VALUE." s1).1,
                (evalConditionWithCheck Γ O c
                  "For loop condition is always $VALUE." s1).2)
           | none => (none, s1)
         let s4 :=
           match rc.1 with
           | some t => addAssertion (interfacePush rc.2) t
           | none => interfacePush rc.2
         ∃ s5 s6,
           visitStmt Γ O body s4 = some s5 ∧
           visitStmt Γ O iter s5 = some s6 ∧
           (let s8 := resetVariableIndices (interfacePop s6) (copyVariableIndices s0)
            let rc2 :=
              match c? with
              | some c => evalBexp Γ O c s8
              | none => (Term.boolConst true, s8)
            ∃ s9,
              mergeVariables touched rc2.1 (copyVariableIndices (interfacePop s6))
                (copyVariableIndices rc2.2) rc2.2 = some s9 ∧
              s' = { s9 with loopExecutionHappened := true } ∧
              (∀ v ∈ touched, knownVariable s0 v = true →
                nextOf s0 v ≤ curOf s1 v) ∧
              (∀ v ∈ touched,
                ∃ ti fi ni,
                  (copyVariableIndices (interfacePop s6)).lookup v = some ti ∧
                  (copyVariableIndices rc2.2).lookup v = some fi ∧
                  ti < ni ∧ fi < ni ∧
                  Event.assert (Term.eq (Term.var v ni)
                    (Term.ite rc2.1 (Term.var v ti) (Term.var v fi))) ∈ s'.trace)))) := by
  constructor
  · intro c body s s' hOK h
    intro touched s1 cc
    simp only [visitStmt, Bool.false_eq_true, if_false] at h
    split at h
    · simp at h
    · next sOut hB =>
        split at h
        · simp at h
        · next s5 hM =>
            refine ⟨sOut, hB, ?_⟩
            intro s4 rc2
            have hs' : s' = { s5 with loopExecutionHappened := true } := by
              injection h with h
              exact h.symm
            have Khav := (resetVariables_ok Γ touched s).2 hOK
            have Fcc := (evalConditionWithCheck_ok Γ O c
              "While loop condition is always $VALUE." s1).1
            have Kcc := (evalConditionWithCheck_ok Γ O c
              "While loop condition is always $VALUE." s1).2 Khav
            have FB := (visitStmt_ok Γ O body _ _ hB).1
            have KB := (visitStmt_ok Γ O body _ _ hB).2 (varsOK_of_vars_eq rfl Kcc)
            have Kpop : VarsOK (popPathCondition sOut) := varsOK_of_vars_eq rfl KB
            have Fbr : StepFacts cc.2 (popPathCondition sOut) :=
              stepFacts_trans (stepFacts_pushPath _ _)
                (stepFacts_trans FB (stepFacts_popPath _))
            have K3 : VarsOK (resetVariableIndices (popPathCondition sOut)
                (copyVariableIndices cc.2)) :=
              varsOK_reset Kpop (snapLE_mono (snapLE_copy Kcc) Fbr.2.1)
            have Fs3 : StepFacts s (resetVariableIndices (popPathCondition sOut)
                (copyVariableIndices cc.2)) :=
              stepFacts_trans (resetVariables_ok Γ touched s).1
                (stepFacts_trans Fcc (stepFacts_trans Fbr (stepFacts_reset _ _)))
            have K4 : VarsOK s4 :=
              varsOK_reset K3 (snapLE_mono (snapLE_copy hOK) Fs3.2.1)
            have Fc2 := (evalBexp_ok Γ O c s4).1
            have Krc2 : VarsOK rc2.2 := (evalBexp_ok Γ O c s4).2 K4
            have FpopM : StepFacts (popPathCondition sOut) rc2.2 :=
              stepFacts_trans (stepFacts_reset _ _)
                (stepFacts_trans (stepFacts_reset _ _) Fc2)
            obtain ⟨Fm, Km, hasrt, hMall⟩ := mergeVariablesFrom_ok _ _ _ _ _ _ hM
            refine ⟨s5, hM, hs', ?_, ?_, ?_⟩
            · intro v hv hk
              exact resetVariables_cur_ge Γ touched s v hv hk
            · intro v hv
              obtain ⟨ti, fi, hti, hfi, hne, ni, hni, hmem⟩ :=
                hMall v ((mem_dedupSort v _).2 hv)
              refine ⟨ti, fi, ni, hti, hfi, ?_, ?_, ?_⟩
              · have h1 : ti < nextOf (popPathCondition sOut) v :=
                  snapLE_copy Kpop (v, ti) (lookup_mem hti)
                exact Nat.lt_of_lt_of_le h1 (Nat.le_trans (FpopM.2.1 v) hni)
              · have h1 : fi < nextOf rc2.2 v :=
                  snapLE_copy Krc2 (v, fi) (lookup_mem hfi)
                exact Nat.lt_of_lt_of_le h1 hni
              · rw [hs']
                exact hmem
            · intro hnoi v hk
              have hveq : rc2.2.vars = s4.vars := evalBexp_vars_noInc Γ O c s4 hnoi
              show (copyVariableIndices rc2.2).lookup v = some (curOf s v)
              rw [lookup_copy, hveq]
              show ((resetVariableIndices (resetVariableIndices (popPathCondition sOut)
                (copyVariableIndices cc.2)) (copyVariableIndices s)).vars.lookup v).map
                  SymVar.cur = some (curOf s v)
              rw [lookup_reset]
              have hkX : keysOf (resetVariableIndices (popPathCondition sOut)
                  (copyVariableIndices cc.2)) = keysOf s := by
                rw [keysOf_reset, Fbr.1, Fcc.1, (resetVariables_ok Γ touched s).1.1]
              have hvX : v ∈ keysOf (resetVariableIndices (popPathCondition sOut)
                  (copyVariableIndices cc.2)) := by
                rw [hkX]
                exact (known_iff_mem_keys s v).1 hk
              have hsome := (lookup_isSome_iff (resetVariableIndices (popPathCondition sOut)
                (copyVariableIndices cc.2)).vars v).2 hvX
              cases hold : (resetVariableIndices (popPathCondition sOut)
                  (copyVariableIndices cc.2)).vars.lookup v with
              | none => rw [hold] at hsome; cases hsome
              | some old =>
                  cases hq : s.vars.lookup v with
                  | none =>
                      rw [knownVariable, hq] at hk
                      cases hk
                  | some q =>
                      have hcs : (copyVariableIndices s).lookup v = some q.cur := by
                        rw [lookup_copy, hq]
                        rfl
                      simp [hcs, curOf, Chk.getVar, hq]
  · intro init c? iter body s s' hOK h
    cases c? with
    | some c =>
        simp only [visitStmt] at h
        split at h
        · simp at h
        · next s0 hI =>
            refine ⟨s0, hI, ?_⟩
            intro touched s1 rc s4
            split at h
            · simp at h
            · next s5 hB =>
                split at h
                · simp at h
                · next s6 hIt =>
                    split at h
                    · simp at h
                    · next s9 hM =>
                        refine ⟨s5, s6, hB, hIt, ?_⟩
                        intro s8 rc2
                        have hs' : s' = { s9 with loopExecutionHappened := true } := by
                          injection h with h
                          exact h.symm
                        have K0 := (visitStmt_ok Γ O init _ _ hI).2 hOK
                        have Khav := (resetVariables_ok Γ touched s0).2 K0
                        have Fcc := (evalConditionWithCheck_ok Γ O c
                          "For loop condition is always $VALUE." s1).1
                        have Kcc := (evalConditionWithCheck_ok Γ O c
                          "For loop condition is always $VALUE." s1).2 Khav
                        have KB := (visitStmt_ok Γ O body _ _ hB).2
                          (varsOK_of_vars_eq rfl Kcc)
                        have KIt := (visitStmt_ok Γ O iter _ _ hIt).2 KB
                        have Kpop : VarsOK (interfacePop s6) :=
                          varsOK_of_vars_eq rfl KIt
                        have hmono : ∀ v, nextOf s0 v ≤ nextOf (interfacePop s6) v := by
                          intro v
                          have h1 : nextOf s0 v ≤ nextOf s1 v :=
                            (resetVariables_ok Γ touched s0).1.2.1 v
                          have h2 : nextOf s1 v ≤ nextOf (evalConditionWithCheck Γ O c
                              "For loop condition is always $VALUE." s1).2 v := Fcc.2.1 v
                          have h3 : nextOf (evalConditionWithCheck Γ O c
                              "For loop condition is always $VALUE." s1).2 v ≤ nextOf s4 v :=
                            nextOf_le_of_vars_eq rfl v
                          have h4 : nextOf s4 v ≤ nextOf s5 v :=
                            (visitStmt_ok Γ O body _ _ hB).1.2.1 v
                          have h5 : nextOf s5 v ≤ nextOf s6 v :=
                            (visitStmt_ok Γ O iter _ _ hIt).1.2.1 v
                          have h6 : nextOf s6 v ≤ nextOf (interfacePop s6) v :=
                            nextOf_le_of_vars_eq rfl v
                          omega
                        have K8 : VarsOK s8 :=
                          varsOK_reset Kpop (snapLE_mono (snapLE_copy K0) hmono)
                        have Fc2 := (evalBexp_ok Γ O c s8).1
                        have Krc2 : VarsOK rc2.2 := (evalBexp_ok Γ O c s8).2 K8
                        obtain ⟨Fm, Km, hasrt, hMall⟩ := mergeVariablesFrom_ok _ _ _ _ _ _ hM
                        refine ⟨s9, hM, hs', ?_, ?_⟩
                        · intro v hv hk
                          exact resetVariables_cur_ge Γ touched s0 v hv hk
                        · intro v hv
                          obtain ⟨ti, fi, hti, hfi, hne, ni, hni, hmem⟩ :=
                            hMall v ((mem_dedupSort v _).2 hv)
                          refine ⟨ti, fi, ni, hti, hfi, ?_, ?_, ?_⟩
                          · have h1 : ti < nextOf (interfacePop s6) v :=
                              snapLE_copy Kpop (v, ti) (lookup_mem hti)
                            have h2 : nextOf (interfacePop s6) v ≤ nextOf rc2.2 v :=
                              Nat.le_trans ((stepFacts_reset (interfacePop s6) _).2.1 v)
                                (Fc2.2.1 v)
                            exact Nat.lt_of_lt_of_le h1 (Nat.le_trans h2 hni)
                          · have h1 : fi < nextOf rc2.2 v :=
                              snapLE_copy Krc2 (v, fi) (lookup_mem hfi)
                            exact Nat.lt_of_lt_of_le h1 hni
                          · rw [hs']
                            exact hmem
    | none =>
        simp only [visitStmt] at h
        split at h
        · simp at h
        · next s0 hI =>
            refine ⟨s0, hI, ?_⟩
            intro touched s1 rc s4
            split at h
            · simp at h
            · next s5 hB =>
                split at h
                · simp at h
                · next s6 hIt =>
                    split at h
                    · simp at h
                    · next s9 hM =>
                        refine ⟨s5, s6, hB, hIt, ?_⟩
                        intro s8 rc2
                        have hs' : s' = { s9 with loopExecutionHappened := true } := by
                          injection h with h
                          exact h.symm
                        have K0 := (visitStmt_ok Γ O init _ _ hI).2 hOK
                        have Khav := (resetVariables_ok Γ touched s0).2 K0
                        have KB := (visitStmt_ok Γ O body _ _ hB).2
                          (varsOK_of_vars_eq rfl Khav)
                        have KIt := (visitStmt_ok Γ O iter _ _ hIt).2 KB
                        have Kpop : VarsOK (interfacePop s6) :=
                          varsOK_of_vars_eq rfl KIt
                        have hmono : ∀ v, nextOf s0 v ≤ nextOf (interfacePop s6) v := by
                          intro v
                          have h1 : nextOf s0 v ≤ nextOf s1 v :=
                            (resetVariables_ok Γ touched s0).1.2.1 v
                          have h3 : nextOf s1 v ≤ nextOf s4 v :=
                            nextOf_le_of_vars_eq rfl v
                          have h4 : nextOf s4 v ≤ nextOf s5 v :=
                            (visitStmt_ok Γ O body _ _ hB).1.2.1 v
                          have h5 : nextOf s5 v ≤ nextOf s6 v :=
                            (visitStmt_ok Γ O iter _ _ hIt).1.2.1 v
                          have h6 : nextOf s6 v ≤ nextOf (interfacePop s6) v :=
                            nextOf_le_of_vars_eq rfl v
                          omega
                        have K8 : VarsOK s8 :=
                          varsOK_reset Kpop (snapLE_mono (snapLE_copy K0) hmono)
                        obtain ⟨Fm, Km, hasrt, hMall⟩ := mergeVariablesFrom_ok _ _ _ _ _ _ hM
                        refine ⟨s9, hM, hs', ?_, ?_⟩
                        · intro v hv hk
                          exact resetVariables_cur_ge Γ touched s0 v hv hk
                        · intro v hv
                          obtain ⟨ti, fi, hti, hfi, hne, ni, hni, hmem⟩ :=
                            hMall v ((mem_dedupSort v _).2 hv)
                          refine ⟨ti, fi, ni, hti, hfi, ?_, ?_, ?_⟩
                          · have h1 : ti < nextOf (interfacePop s6) v :=
                              snapLE_copy Kpop (v, ti) (lookup_mem hti)
                            have h2 : nextOf (interfacePop s6) v ≤ nextOf rc2.2 v :=
                              (stepFacts_reset (interfacePop s6) _).2.1 v
                            exact Nat.lt_of_lt_of_le h1 (Nat.le_trans h2 hni)
                          · have h1 : fi < nextOf rc2.2 v :=
                              snapLE_copy K8 (v, fi) (lookup_mem hfi)
                            exact Nat.lt_of_lt_of_le h1 hni
                          · rw [hs']
                            exact hmem

/-- Witness for the amended C2 at a concrete input: the while loop
`while (x > 0) { x := 2 }` on a concrete state decomposes exactly as
stated, and since its condition is side-effect-free the false side of the
merge is the pre-loop current index. -/
theorem loop_merge_snapshots_witness :
    (let touched := touchedStmt (.whileS false (.gt (.var 0) (.lit 0))
      (.assign 0 (.lit 2)))
    let s1 := resetVariables envU8 st1 touched
    let cc := evalConditionWithCheck envU8 oracleUnsat (.gt (.var 0) (.lit 0))
      "While loop condition is always $VALUE." s1
    ∃ sOut,
      visitStmt envU8 oracleUnsat (.assign 0 (.lit 2))
        (pushPathCondition cc.2 cc.1) = some sOut ∧
      (let s4 := resetVariableIndices
          (resetVariableIndices (popPathCondition sOut) (copyVariableIndices cc.2))
          (copyVariableIndices st1)
       let rc2 := evalBexp envU8 oracleUnsat (.gt (.var 0) (.lit 0)) s4
       ∃ s5,
         mergeVariables touched rc2.1 (copyVariableIndices (popPathCondition sOut))
           (copyVariableIndices rc2.2) rc2.2 = some s5 ∧
         ((visitStmt envU8 oracleUnsat (.whileS false (.gt (.var 0) (.lit 0))
           (.assign 0 (.lit 2))) st1).getD chkDefault) =
           { s5 with loopExecutionHappened := true } ∧
         (∀ v ∈ touched, knownVariable st1 v = true →
           nextOf st1 v ≤ curOf s1 v) ∧
         (∀ v ∈ touched,
           ∃ ti fi ni,
             (copyVariableIndices (popPathCondition sOut)).lookup v = some ti ∧
             (copyVariableIndices rc2.2).lookup v = some fi ∧
             ti < ni ∧ fi < ni ∧
             Event.assert (Term.eq (Term.var v ni)
               (Term.ite rc2.1 (Term.var v ti) (Term.var v fi))) ∈
               ((visitStmt envU8 oracleUnsat (.whileS false (.gt (.var 0) (.lit 0))
                 (.assign 0 (.lit 2))) st1).getD chkDefault).trace) ∧
         (noIncB (.gt (.var 0) (.lit 0)) = true → ∀ v,
           knownVariable st1 v = true →
           (copyVariableIndices rc2.2).lookup v = some (curOf st1 v)))) :=
  (loop_merge_snapshots envU8 oracleUnsat).1 (.gt (.var 0) (.lit 0)) (.assign 0 (.lit 2))
    st1 ((visitStmt envU8 oracleUnsat (.whileS false (.gt (.var 0) (.lit 0))
      (.assign 0 (.lit 2))) st1).getD chkDefault) ⟨by decide, by decide⟩ (by decide)

end SMTCheckerM
